import Mathlib

/-!
Verification of the bm2 process-manager supervision engine against its
natural-language specification.  The definitions below are a shallow
embedding of the TypeScript sources:

* `ProcessContainer` (src/src/process-container.ts) — restart state machine,
  exit handling, stop/restart/reset, graceful reload;
* `ClusterManager` (cluster-manager source) — worker environment injection;
* `ProcessManager` (process-manager source) — registry, start, target
  resolution, save/resurrect;
* `LogManager.rotate` (log-manager source) — size-triggered log rotation;
* `parseMemory` (src/src/process-container.ts, utils section).

Machine integers are modelled as `Nat`/`Int`/`ℚ`; JavaScript `Date.now()`
timestamps are `Nat` parameters; process ids delivered by the OS are `Nat`
parameters.  Fallible code returns `Option`/`Except`.
-/

namespace BM2

/-- Process status, from `ProcessStatus` in src/src/types.ts. -/
inductive Status where
  | online
  | stopping
  | stopped
  | errored
  | launching
  | waitingRestart
  | oneLaunch
deriving DecidableEq, Repr

/-- Runtime state of one `ProcessContainer` (src/src/process-container.ts).
`autorestart`, `maxRestarts` and `minUptime` are the fields of
`this.config` the restart machinery reads; `autorestart` is mutable state
because `stop()` assigns `this.config.autorestart = false`.
`processAlive` models `this.process != null`, `restartTimerArmed` models
`this.restartTimer != null`. -/
structure Container where
  status : Status
  pid : Option Nat
  processAlive : Bool
  restartCount : Nat
  unstableRestarts : Nat
  startedAt : Nat
  isRestarting : Bool
  restartTimerArmed : Bool
  autorestart : Bool
  maxRestarts : Nat
  minUptime : Nat
deriving DecidableEq, Repr

/-- A freshly constructed container (constructor of `ProcessContainer`):
status `stopped`, no child, zero counters. -/
def initC (auto : Bool) (maxR minU : Nat) : Container :=
  { status := Status.stopped
    pid := none
    processAlive := false
    restartCount := 0
    unstableRestarts := 0
    startedAt := 0
    isRestarting := false
    restartTimerArmed := false
    autorestart := auto
    maxRestarts := maxR
    minUptime := minU }

/-- `ProcessContainer.start()` (lines 81-160) with a successful spawn.
The very first statement is `if (this.status === "online") return;`, so a
container that is already online is left untouched and no child is
spawned.  Otherwise the code goes `launching`, spawns (the OS hands back
`newPid`), records `startedAt = Date.now()` and becomes `online`. -/
def startC (newPid now : Nat) (c : Container) : Container :=
  if c.status = Status.online then c
  else
    { c with
      status := Status.online
      pid := some newPid
      processAlive := true
      startedAt := now }

/-- Whether `ProcessContainer.start()` spawns a new OS child: it does
exactly when the early `status === "online"` return is not taken. -/
def startSpawns (c : Container) : Bool :=
  !(c.status == Status.online)

/-- `ProcessContainer.handleExit(code)` (lines 324-353).  `code` is the
child exit code (`null` when killed by a signal).  `now` is `Date.now()`
at exit time. -/
def handleExit (code : Option Int) (now : Nat) (c : Container) : Container :=
  let wasOnline := c.status = Status.online
  let c1 : Container :=
    { c with
      status := if code = some 0 then Status.stopped else Status.errored
      pid := none
      processAlive := false }
  let uptime := now - c1.startedAt
  if wasOnline ∧ c1.autorestart = true ∧ c1.restartCount < c1.maxRestarts then
    { c1 with
      unstableRestarts :=
        if uptime < c1.minUptime then c1.unstableRestarts + 1 else c1.unstableRestarts
      status := Status.waitingRestart
      restartTimerArmed := true }
  else if c1.maxRestarts ≤ c1.restartCount then
    { c1 with status := Status.errored }
  else c1

/-- Firing of the one-shot timer armed by `handleExit` (the `setTimeout`
callback in lines 342-348): increment `restartCount`, then `start()`. -/
def restartTimerFire (newPid now : Nat) (c : Container) : Container :=
  startC newPid now { c with restartTimerArmed := false, restartCount := c.restartCount + 1 }

/-- `ProcessContainer.stop()` (lines 368-429), collapsed to its final
state.  Statuses other than `online`, `launching`, `waiting-restart`
return immediately; otherwise the flag `config.autorestart` is forced to
`false`, the pending restart timer is cancelled, the child is killed and
reaped, and the container ends `stopped` with no child. -/
def stopC (c : Container) : Container :=
  if c.status ≠ Status.online ∧ c.status ≠ Status.launching ∧
      c.status ≠ Status.waitingRestart then c
  else
    { c with
      isRestarting := false
      autorestart := false
      restartTimerArmed := false
      status := Status.stopped
      pid := none
      processAlive := false }

/-- `ProcessContainer.restart()` (lines 431-438): save
`config.autorestart`, stop, restore the saved flag, start again. -/
def restartC (newPid now : Nat) (c : Container) : Container :=
  let wasAuto := c.autorestart
  let c1 := stopC { c with isRestarting := true }
  let c2 := { c1 with autorestart := wasAuto, isRestarting := false }
  startC newPid now c2

/-- `ProcessManager.reset(target)` applied to one container: zero the
restart counters, touch nothing else. -/
def resetC (c : Container) : Container :=
  { c with restartCount := 0, unstableRestarts := 0 }

/-- One supervision event on a container.  `exit` is delivered by the OS
only for a live child and only when the `exited.then` guard
`!this.isRestarting` passes; `timer` fires only when armed. -/
inductive Step : Container → Container → Prop where
  | exit (code : Option Int) (now : Nat) {c : Container}
      (halive : c.processAlive = true) (hrest : c.isRestarting = false) :
      Step c (handleExit code now c)
  | timer (newPid now : Nat) {c : Container} (h : c.restartTimerArmed = true) :
      Step c (restartTimerFire newPid now c)
  | stop {c : Container} : Step c (stopC c)
  | restart (newPid now : Nat) {c : Container} : Step c (restartC newPid now c)
  | reset {c : Container} : Step c (resetC c)
  | start (newPid now : Nat) {c : Container} : Step c (startC newPid now c)

/-- Reachability of a container state from another by supervision events. -/
def Reachable (c0 c : Container) : Prop :=
  Relation.ReflTransGen Step c0 c

/-- The restart-cap invariant: the counter never exceeds the cap, and a
pending automatic restart implies the counter is strictly below the cap. -/
def CapInv (c : Container) : Prop :=
  c.restartCount ≤ c.maxRestarts ∧
    (c.restartTimerArmed = true → c.restartCount < c.maxRestarts)

lemma capInv_init (auto : Bool) (maxR minU : Nat) : CapInv (initC auto maxR minU) := by
  constructor
  · exact Nat.zero_le _
  · intro h
    simp [initC] at h

lemma capInv_startC (newPid now : Nat) {c : Container} (h : CapInv c) :
    CapInv (startC newPid now c) := by
  unfold startC
  split
  · exact h
  · exact ⟨h.1, h.2⟩

lemma capInv_handleExit (code : Option Int) (now : Nat) {c : Container} (h : CapInv c) :
    CapInv (handleExit code now c) := by
  unfold handleExit
  dsimp only
  split
  · rename_i hcond
    refine ⟨Nat.le_of_lt hcond.2.2, fun _ => hcond.2.2⟩
  · split
    · exact ⟨h.1, h.2⟩
    · exact ⟨h.1, h.2⟩

lemma capInv_timerFire (newPid now : Nat) {c : Container}
    (h : CapInv c) (harm : c.restartTimerArmed = true) :
    CapInv (restartTimerFire newPid now c) := by
  have hlt := h.2 harm
  apply capInv_startC
  exact ⟨hlt, by intro hfalse; simp at hfalse⟩

lemma capInv_stopC {c : Container} (h : CapInv c) : CapInv (stopC c) := by
  unfold stopC
  split
  · exact h
  · exact ⟨h.1, by intro hfalse; simp at hfalse⟩

lemma capInv_restartC (newPid now : Nat) {c : Container} (h : CapInv c) :
    CapInv (restartC newPid now c) := by
  unfold restartC
  apply capInv_startC
  have h1 : CapInv (stopC { c with isRestarting := true }) :=
    capInv_stopC ⟨h.1, h.2⟩
  exact ⟨h1.1, h1.2⟩

lemma capInv_resetC {c : Container} (h : CapInv c) : CapInv (resetC c) := by
  refine ⟨Nat.zero_le _, fun harm => ?_⟩
  have := h.2 harm
  exact Nat.lt_of_le_of_lt (Nat.zero_le _) this

lemma capInv_step {c c' : Container} (h : CapInv c) (hs : Step c c') : CapInv c' := by
  cases hs with
  | exit code now halive hrest => exact capInv_handleExit code now h
  | timer newPid now harm => exact capInv_timerFire newPid now h harm
  | stop => exact capInv_stopC h
  | restart newPid now => exact capInv_restartC newPid now h
  | reset => exact capInv_resetC h
  | start newPid now => exact capInv_startC newPid now h

lemma capInv_reachable {auto : Bool} {maxR minU : Nat} {c : Container}
    (h : Reachable (initC auto maxR minU) c) : CapInv c := by
  induction h with
  | refl => exact capInv_init auto maxR minU
  | tail _ hs ih => exact capInv_step ih hs

/-- C5.  For every reachable container, `restart_count ≤ max_restarts`;
once the counter equals the cap, a child exit drives the container to
`errored` and arms no restart timer (so no automatic spawn occurs), and
an operator `reset` zeroes the counters again. -/
theorem restartCap_invariant (auto : Bool) (maxR minU : Nat) (c : Container)
    (h : Reachable (initC auto maxR minU) c) :
    c.restartCount ≤ c.maxRestarts ∧
    (c.restartCount = c.maxRestarts →
      ∀ (code : Option Int) (now : Nat),
        (handleExit code now c).status = Status.errored ∧
        (handleExit code now c).restartTimerArmed = false) ∧
    (resetC c).restartCount = 0 ∧ (resetC c).unstableRestarts = 0 := by
  have hinv := capInv_reachable h
  refine ⟨hinv.1, fun hcap code now => ?_, rfl, rfl⟩
  have harm : c.restartTimerArmed = false := by
    cases harmv : c.restartTimerArmed
    · rfl
    · exfalso
      have := hinv.2 harmv
      omega
  have hnot : ¬(c.status = Status.online ∧ c.autorestart = true ∧
      c.restartCount < c.maxRestarts) := by
    rintro ⟨-, -, hlt⟩
    omega
  constructor
  · unfold handleExit
    dsimp only
    rw [if_neg hnot, if_pos (by omega : c.maxRestarts ≤ c.restartCount)]
  · unfold handleExit
    dsimp only
    rw [if_neg hnot, if_pos (by omega : c.maxRestarts ≤ c.restartCount)]
    exact harm

/-- Closed instance of `restartCap_invariant` at the initial state of a
container with `max_restarts = 0`. -/
theorem restartCap_invariant_witness :
    (initC true 0 1000).restartCount ≤ (initC true 0 1000).maxRestarts ∧
    (handleExit (some 1) 7 (initC true 0 1000)).status = Status.errored :=
  ⟨(restartCap_invariant true 0 1000 (initC true 0 1000) Relation.ReflTransGen.refl).1,
   ((restartCap_invariant true 0 1000 (initC true 0 1000)
      Relation.ReflTransGen.refl).2.1 rfl (some 1) 7).1⟩

/-- C6 (amended).  An exit increments `unstable_restarts` by exactly 1
precisely when the exit comes from `online` with autorestart enabled and
the restart counter below the cap and the uptime below `min_uptime`; in
every other case — in particular a short-uptime exit with autorestart
disabled or at the restart cap — the counter is unchanged. -/
theorem unstableRestarts_exit_characterization (c : Container) (code : Option Int) (now : Nat) :
    (handleExit code now c).unstableRestarts =
      if c.status = Status.online ∧ c.autorestart = true ∧
          c.restartCount < c.maxRestarts ∧ now - c.startedAt < c.minUptime
      then c.unstableRestarts + 1 else c.unstableRestarts := by
  unfold handleExit
  dsimp only
  by_cases hA : c.status = Status.online ∧ c.autorestart = true ∧
      c.restartCount < c.maxRestarts
  · rw [if_pos hA]
    dsimp only
    by_cases hu : now - c.startedAt < c.minUptime
    · rw [if_pos hu,
        if_pos (show c.status = Status.online ∧ c.autorestart = true ∧
          c.restartCount < c.maxRestarts ∧ now - c.startedAt < c.minUptime from
          ⟨hA.1, hA.2.1, hA.2.2, hu⟩)]
    · rw [if_neg hu,
        if_neg (show ¬(c.status = Status.online ∧ c.autorestart = true ∧
          c.restartCount < c.maxRestarts ∧ now - c.startedAt < c.minUptime) from
          fun hc => hu hc.2.2.2)]
  · rw [if_neg hA,
      if_neg (show ¬(c.status = Status.online ∧ c.autorestart = true ∧
        c.restartCount < c.maxRestarts ∧ now - c.startedAt < c.minUptime) from
        fun hc => hA ⟨hc.1, hc.2.1, hc.2.2.1⟩)]
    split <;> rfl

/-- A container started with `autorestart = false`, reachable from a fresh
container. -/
def c6cex : Container := startC 100 0 (initC false 16 1000)

/-- C6 counterexample.  `c6cex` is reachable and online with a live child;
its child exits at time 5, an uptime of 5 ms, far below `min_uptime =
1000`; yet `unstable_restarts` does not increase, because the increment
sits inside the autorestart branch of `handleExit` and here
`autorestart = false`.  The claim demands an increase by exactly 1 on
every short-uptime exit. -/
theorem unstableRestarts_short_exit_not_incremented :
    Reachable (initC false 16 1000) c6cex ∧
    c6cex.processAlive = true ∧
    (5 : Nat) - c6cex.startedAt < c6cex.minUptime ∧
    (handleExit (some 1) 5 c6cex).unstableRestarts = c6cex.unstableRestarts := by
  refine ⟨Relation.ReflTransGen.single (Step.start 100 0), ?_, ?_, ?_⟩ <;> decide

/-- C10.  `restart()` restores `config.autorestart` to its value before
the call (it saves the flag before its internal `stop()`, which forces
the flag to `false`, and restores it before respawning), while a plain
`stop()` of an online container leaves the flag `false`. -/
theorem restart_preserves_autorestart (c : Container) (newPid now : Nat) :
    (restartC newPid now c).autorestart = c.autorestart ∧
    (c.status = Status.online → (stopC c).autorestart = false) := by
  constructor
  · unfold restartC
    dsimp only
    unfold startC
    split <;> rfl
  · intro hon
    unfold stopC
    rw [if_neg (by rintro ⟨h1, -, -⟩; exact h1 hon)]

/-- Closed instance of `restart_preserves_autorestart` on an online
container with autorestart enabled. -/
def c10c : Container := startC 100 0 (initC true 16 1000)

theorem restart_preserves_autorestart_witness :
    (restartC 5 9 c10c).autorestart = c10c.autorestart ∧
    (stopC c10c).autorestart = false :=
  ⟨(restart_preserves_autorestart c10c 5 9).1,
   (restart_preserves_autorestart c10c 5 9).2 (by decide)⟩

/-- ASCII uppercase conversion, modelling both the case-insensitive `/i`
regex matching and `String.prototype.toUpperCase` on the inputs the
memory parser sees. -/
def upperAscii (c : Char) : Char :=
  if 97 ≤ c.toNat ∧ c.toNat ≤ 122 then Char.ofNat (c.toNat - 32) else c

lemma char_toNat_ofNat (n : Nat) (h : n < 55296) : (Char.ofNat n).toNat = n := by
  have hv : Nat.isValidChar n := Or.inl h
  rw [Char.ofNat, dif_pos hv]
  rfl

lemma toNat_upperAscii (c : Char) :
    (upperAscii c).toNat = if 97 ≤ c.toNat ∧ c.toNat ≤ 122 then c.toNat - 32 else c.toNat := by
  unfold upperAscii
  split
  · rename_i h
    exact char_toNat_ofNat _ (by omega)
  · rfl

lemma char_eq_iff_toNat {a b : Char} : a = b ↔ a.toNat = b.toNat :=
  ⟨fun h => by rw [h], fun h => Char.ext (UInt32.ext h)⟩

/-- Decimal digit test, `\d` of the regex. -/
def isDigitJS (c : Char) : Bool := decide (48 ≤ c.toNat ∧ c.toNat ≤ 57)

/-- Whitespace test, the ASCII part of `\s` of the regex. -/
def isSpaceJS (c : Char) : Bool :=
  decide (c.toNat = 32 ∨ c.toNat = 9 ∨ c.toNat = 10 ∨ c.toNat = 13 ∨
    c.toNat = 11 ∨ c.toNat = 12)

lemma isDigitJS_upperAscii (c : Char) : isDigitJS (upperAscii c) = isDigitJS c := by
  unfold isDigitJS
  rw [decide_eq_decide]
  have h := toNat_upperAscii c
  split at h <;> omega

lemma isSpaceJS_upperAscii (c : Char) : isSpaceJS (upperAscii c) = isSpaceJS c := by
  unfold isSpaceJS
  rw [decide_eq_decide]
  have h := toNat_upperAscii c
  split at h <;> omega

lemma upperAscii_eq_dot (c : Char) : upperAscii c = '.' ↔ c = '.' := by
  rw [char_eq_iff_toNat, char_eq_iff_toNat]
  have h := toNat_upperAscii c
  show (upperAscii c).toNat = 46 ↔ c.toNat = 46
  split at h <;> omega

lemma upperAscii_idem (c : Char) : upperAscii (upperAscii c) = upperAscii c := by
  rw [char_eq_iff_toNat]
  have h1 := toNat_upperAscii c
  have h2 := toNat_upperAscii (upperAscii c)
  split at h1 <;> split at h2 <;> omega

/-- Numeric value of a digit string, exact rational semantics of
`parseFloat` on `\d+`. -/
def natOfDigits (l : List Char) : Nat :=
  l.foldl (fun a c => a * 10 + (c.toNat - 48)) 0

/-- Value of the fractional digits of `parseFloat` on `\d+\.\d+`. -/
def fracOfDigits (l : List Char) : ℚ :=
  (natOfDigits l : ℚ) / (10 ^ l.length)

/-- Numeric part of the `parseMemory` regex
`^(\d+(?:\.\d+)?)\s*(K|M|G|T)?B?$` (src/src/process-container.ts, utils
section, lines 537-547): one or more digits, optionally a dot followed by
one or more digits.  Returns the exact value and the unconsumed tail;
`none` when the string does not start with a digit. -/
def memNum (l : List Char) : Option (ℚ × List Char) :=
  let ds := l.takeWhile isDigitJS
  let r1 := l.dropWhile isDigitJS
  if ds.isEmpty then none
  else
    match r1 with
    | c :: rest =>
      if c = '.' then
        let fs := rest.takeWhile isDigitJS
        if fs.isEmpty then some ((natOfDigits ds : ℚ), r1)
        else some ((natOfDigits ds : ℚ) + fracOfDigits fs, rest.dropWhile isDigitJS)
      else some ((natOfDigits ds : ℚ), r1)
    | [] => some ((natOfDigits ds : ℚ), [])

/-- Unit part `(K|M|G|T)?` of the regex together with the multiplier
table `K ↦ 1024, M ↦ 1024², G ↦ 1024³, T ↦ 1024⁴`, empty unit ↦ 1. -/
def memUnit (l : List Char) : ℚ × List Char :=
  match l with
  | c :: rest =>
    if upperAscii c = 'K' then ((1024 : ℚ), rest)
    else if upperAscii c = 'M' then ((1024 : ℚ) ^ 2, rest)
    else if upperAscii c = 'G' then ((1024 : ℚ) ^ 3, rest)
    else if upperAscii c = 'T' then ((1024 : ℚ) ^ 4, rest)
    else ((1 : ℚ), c :: rest)
  | [] => ((1 : ℚ), [])

/-- Optional byte marker `B?` of the regex. -/
def memB (l : List Char) : List Char :=
  match l with
  | c :: rest => if upperAscii c = 'B' then rest else c :: rest
  | [] => []

/-- The whole `parseMemory` match on a character list: number, optional
whitespace, optional unit, optional `B`, end of input. -/
def parseMemChars (l : List Char) : Option ℚ :=
  match memNum l with
  | none => none
  | some (v, r2) =>
    let r3 := r2.dropWhile isSpaceJS
    let u := memUnit r3
    let r5 := memB u.2
    if r5.isEmpty then some (v * u.1) else none

/-- `parseMemory` (src/src/process-container.ts lines 537-547) on a
string input: a failed regex match throws
`Invalid memory value: <value>`. -/
def parseMemory (s : String) : Except String ℚ :=
  match parseMemChars s.toList with
  | some q => Except.ok q
  | none => Except.error s

lemma map_upperAscii_digits {l : List Char} (h : ∀ c ∈ l, isDigitJS c = true) :
    l.map upperAscii = l := by
  induction l with
  | nil => rfl
  | cons c t ih =>
    have hc : isDigitJS c = true := h c (List.mem_cons_self c t)
    have ht := ih fun x hx => h x (List.mem_cons_of_mem c hx)
    have hc2 : ¬(97 ≤ c.toNat ∧ c.toNat ≤ 122) := by
      unfold isDigitJS at hc
      have := of_decide_eq_true hc
      omega
    simp only [List.map_cons, ht]
    unfold upperAscii
    rw [if_neg hc2]

lemma takeWhile_map_upper (p : Char → Bool) (hp : ∀ c, p (upperAscii c) = p c)
    (l : List Char) :
    (l.map upperAscii).takeWhile p = (l.takeWhile p).map upperAscii := by
  rw [List.takeWhile_map]
  have hcomp : (p ∘ upperAscii) = p := funext hp
  rw [hcomp]

lemma dropWhile_map_upper (p : Char → Bool) (hp : ∀ c, p (upperAscii c) = p c)
    (l : List Char) :
    (l.map upperAscii).dropWhile p = (l.dropWhile p).map upperAscii := by
  rw [List.dropWhile_map]
  have hcomp : (p ∘ upperAscii) = p := funext hp
  rw [hcomp]

lemma isEmpty_map_upper (l : List Char) : (l.map upperAscii).isEmpty = l.isEmpty := by
  cases l <;> rfl

lemma memNum_map_upper (l : List Char) :
    memNum (l.map upperAscii) = (memNum l).map (fun p => (p.1, p.2.map upperAscii)) := by
  unfold memNum
  dsimp only
  rw [takeWhile_map_upper isDigitJS isDigitJS_upperAscii l,
      dropWhile_map_upper isDigitJS isDigitJS_upperAscii l,
      isEmpty_map_upper,
      map_upperAscii_digits (fun x hx => List.mem_takeWhile_imp hx)]
  by_cases hds : (l.takeWhile isDigitJS).isEmpty
  · rw [if_pos hds, if_pos hds]
    rfl
  · rw [if_neg hds, if_neg hds]
    cases hr1 : l.dropWhile isDigitJS with
    | nil => rfl
    | cons c t =>
      dsimp only [List.map_cons]
      by_cases hdot : c = '.'
      · rw [if_pos ((upperAscii_eq_dot c).mpr hdot), if_pos hdot,
          takeWhile_map_upper isDigitJS isDigitJS_upperAscii t,
          dropWhile_map_upper isDigitJS isDigitJS_upperAscii t,
          isEmpty_map_upper,
          map_upperAscii_digits (fun x hx => List.mem_takeWhile_imp hx)]
        by_cases hfs : (t.takeWhile isDigitJS).isEmpty
        · rw [if_pos hfs, if_pos hfs]
          rfl
        · rw [if_neg hfs, if_neg hfs]
          rfl
      · rw [if_neg (fun hcontra => hdot ((upperAscii_eq_dot c).mp hcontra)),
          if_neg hdot]
        rfl

lemma memUnit_map_upper (l : List Char) :
    memUnit (l.map upperAscii) = ((memUnit l).1, (memUnit l).2.map upperAscii) := by
  cases l with
  | nil => rfl
  | cons c t =>
    unfold memUnit
    dsimp only [List.map_cons]
    rw [upperAscii_idem c]
    split_ifs <;> rfl

lemma memB_map_upper (l : List Char) :
    memB (l.map upperAscii) = (memB l).map upperAscii := by
  cases l with
  | nil => rfl
  | cons c t =>
    unfold memB
    dsimp only [List.map_cons]
    rw [upperAscii_idem c]
    split_ifs <;> rfl

/-- The memory parser is invariant under ASCII case folding: folding the
whole input to upper case changes neither success nor the parsed value. -/
lemma parseMemChars_map_upper (l : List Char) :
    parseMemChars (l.map upperAscii) = parseMemChars l := by
  unfold parseMemChars
  rw [memNum_map_upper]
  cases hm : memNum l with
  | none => rfl
  | some p =>
    dsimp only [Option.map]
    rw [dropWhile_map_upper isSpaceJS isSpaceJS_upperAscii p.2,
      memUnit_map_upper, memB_map_upper, isEmpty_map_upper]

/-- The language of the regex `^(\d+(?:\.\d+)?)\s*(K|M|G|T)?B?$/i`,
written as a decomposition of the input: digits, an optional fractional
part, whitespace, an optional unit letter, an optional `B`. -/
def MemFormat (l : List Char) : Prop :=
  ∃ ds fr sp u b,
    l = ds ++ fr ++ sp ++ u ++ b ∧
    ds ≠ [] ∧ (∀ c ∈ ds, isDigitJS c = true) ∧
    (fr = [] ∨ ∃ fd, fr = '.' :: fd ∧ fd ≠ [] ∧ ∀ c ∈ fd, isDigitJS c = true) ∧
    (∀ c ∈ sp, isSpaceJS c = true) ∧
    (u = [] ∨ ∃ c, u = [c] ∧
      (upperAscii c = 'K' ∨ upperAscii c = 'M' ∨ upperAscii c = 'G' ∨ upperAscii c = 'T')) ∧
    (b = [] ∨ ∃ c, b = [c] ∧ upperAscii c = 'B')

lemma memNum_sound {l : List Char} {v : ℚ} {r2 : List Char}
    (h : memNum l = some (v, r2)) :
    ∃ ds fr, l = ds ++ fr ++ r2 ∧ ds ≠ [] ∧ (∀ c ∈ ds, isDigitJS c = true) ∧
      (fr = [] ∨ ∃ fd, fr = '.' :: fd ∧ fd ≠ [] ∧ ∀ c ∈ fd, isDigitJS c = true) := by
  have hsplit : l.takeWhile isDigitJS ++ l.dropWhile isDigitJS = l :=
    List.takeWhile_append_dropWhile isDigitJS l
  have hdig : ∀ c ∈ l.takeWhile isDigitJS, isDigitJS c = true :=
    fun x hx => List.mem_takeWhile_imp hx
  unfold memNum at h
  dsimp only at h
  by_cases hds : (l.takeWhile isDigitJS).isEmpty
  · rw [if_pos hds] at h
    exact absurd h (by simp)
  · rw [if_neg hds] at h
    have hdsne : l.takeWhile isDigitJS ≠ [] := by
      intro hnil
      rw [hnil] at hds
      exact hds rfl
    cases hr1 : l.dropWhile isDigitJS with
    | nil =>
      rw [hr1] at h
      have hr2 : r2 = [] := ((Prod.ext_iff.mp (Option.some.inj h)).2).symm
      refine ⟨l.takeWhile isDigitJS, [], ?_, hdsne, hdig, Or.inl rfl⟩
      rw [hr2]
      simp only [List.append_nil]
      conv_lhs => rw [← hsplit]
      rw [hr1]
      simp
    | cons c t =>
      rw [hr1] at h
      dsimp only at h
      by_cases hdot : c = '.'
      · rw [if_pos hdot] at h
        by_cases hfs : (t.takeWhile isDigitJS).isEmpty
        · rw [if_pos hfs] at h
          have hr2 : r2 = c :: t := ((Prod.ext_iff.mp (Option.some.inj h)).2).symm
          refine ⟨l.takeWhile isDigitJS, [], ?_, hdsne, hdig, Or.inl rfl⟩
          rw [hr2]
          simp only [List.append_nil]
          conv_lhs => rw [← hsplit]
          rw [hr1]
        · rw [if_neg hfs] at h
          have hr2 : r2 = t.dropWhile isDigitJS :=
            ((Prod.ext_iff.mp (Option.some.inj h)).2).symm
          have hfsne : t.takeWhile isDigitJS ≠ [] := by
            intro hnil
            rw [hnil] at hfs
            exact hfs rfl
          refine ⟨l.takeWhile isDigitJS, '.' :: t.takeWhile isDigitJS, ?_, hdsne, hdig,
            Or.inr ⟨t.takeWhile isDigitJS, rfl, hfsne, fun x hx => List.mem_takeWhile_imp hx⟩⟩
          rw [hr2]
          conv_lhs => rw [← hsplit]
          rw [hr1, hdot]
          conv_lhs => rw [← List.takeWhile_append_dropWhile isDigitJS t]
          simp
      · rw [if_neg hdot] at h
        have hr2 : r2 = c :: t := ((Prod.ext_iff.mp (Option.some.inj h)).2).symm
        refine ⟨l.takeWhile isDigitJS, [], ?_, hdsne, hdig, Or.inl rfl⟩
        rw [hr2]
        simp only [List.append_nil]
        conv_lhs => rw [← hsplit]
        rw [hr1]

lemma memUnit_sound (l : List Char) :
    (∃ c, l = c :: (memUnit l).2 ∧
      (upperAscii c = 'K' ∨ upperAscii c = 'M' ∨ upperAscii c = 'G' ∨ upperAscii c = 'T')) ∨
      (memUnit l).2 = l := by
  cases l with
  | nil => exact Or.inr rfl
  | cons c t =>
    unfold memUnit
    dsimp only
    split_ifs with h1 h2 h3 h4
    · exact Or.inl ⟨c, rfl, Or.inl h1⟩
    · exact Or.inl ⟨c, rfl, Or.inr (Or.inl h2)⟩
    · exact Or.inl ⟨c, rfl, Or.inr (Or.inr (Or.inl h3))⟩
    · exact Or.inl ⟨c, rfl, Or.inr (Or.inr (Or.inr h4))⟩
    · exact Or.inr rfl

lemma memB_sound (l : List Char) :
    (∃ c, l = c :: memB l ∧ upperAscii c = 'B') ∨ memB l = l := by
  cases l with
  | nil => exact Or.inr rfl
  | cons c t =>
    unfold memB
    dsimp only
    split_ifs with h1
    · exact Or.inl ⟨c, rfl, h1⟩
    · exact Or.inr rfl

/-- Soundness of the parser with respect to the regex language: a
successful parse implies the input matches the regex. -/
lemma parseMemChars_sound {l : List Char} {q : ℚ} (h : parseMemChars l = some q) :
    MemFormat l := by
  unfold parseMemChars at h
  cases hm : memNum l with
  | none => rw [hm] at h; exact absurd h (by simp)
  | some p =>
    rw [hm] at h
    dsimp only at h
    obtain ⟨ds, fr, hl, hdsne, hdsdig, hfr⟩ :=
      memNum_sound (show memNum l = some (p.1, p.2) by rw [hm])
    have hspsplit : p.2.takeWhile isSpaceJS ++ p.2.dropWhile isSpaceJS = p.2 :=
      List.takeWhile_append_dropWhile isSpaceJS p.2
    have hspace : ∀ c ∈ p.2.takeWhile isSpaceJS, isSpaceJS c = true :=
      fun x hx => List.mem_takeWhile_imp hx
    set r3 := p.2.dropWhile isSpaceJS with hr3
    have hempty : (memB (memUnit r3).2).isEmpty = true := by
      by_contra hne
      rw [if_neg (by simpa using hne)] at h
      exact absurd h (by simp)
    have hr5 : memB (memUnit r3).2 = [] := by
      cases hmb : memB (memUnit r3).2 with
      | nil => rfl
      | cons x xs => rw [hmb] at hempty; exact absurd hempty (by simp)
    rcases memB_sound (memUnit r3).2 with ⟨bc, hbc, hbval⟩ | hbid
    · rcases memUnit_sound r3 with ⟨uc, huc, huval⟩ | huid
      · refine ⟨ds, fr, p.2.takeWhile isSpaceJS, [uc], [bc], ?_, hdsne, hdsdig, hfr,
          hspace, Or.inr ⟨uc, rfl, huval⟩, Or.inr ⟨bc, rfl, hbval⟩⟩
        have hr3v : r3 = [uc, bc] := by rw [huc, hbc, hr5]
        have hp2 : p.2 = p.2.takeWhile isSpaceJS ++ [uc, bc] := by
          conv_lhs => rw [← hspsplit]
          rw [hr3v]
        conv_lhs => rw [hl, hp2]
        simp [List.append_assoc]
      · refine ⟨ds, fr, p.2.takeWhile isSpaceJS, [], [bc], ?_, hdsne, hdsdig, hfr,
          hspace, Or.inl rfl, Or.inr ⟨bc, rfl, hbval⟩⟩
        have hr3v : r3 = [bc] := by
          have h1 : r3 = (memUnit r3).2 := huid.symm
          rw [h1, hbc, hr5]
        have hp2 : p.2 = p.2.takeWhile isSpaceJS ++ [bc] := by
          conv_lhs => rw [← hspsplit]
          rw [hr3v]
        conv_lhs => rw [hl, hp2]
        simp [List.append_assoc]
    · rcases memUnit_sound r3 with ⟨uc, huc, huval⟩ | huid
      · have hbnil : (memUnit r3).2 = [] := by
          rw [hbid] at hr5
          exact hr5
        refine ⟨ds, fr, p.2.takeWhile isSpaceJS, [uc], [], ?_, hdsne, hdsdig, hfr,
          hspace, Or.inr ⟨uc, rfl, huval⟩, Or.inl rfl⟩
        have hr3v : r3 = [uc] := by rw [huc, hbnil]
        have hp2 : p.2 = p.2.takeWhile isSpaceJS ++ [uc] := by
          conv_lhs => rw [← hspsplit]
          rw [hr3v]
        conv_lhs => rw [hl, hp2]
        simp [List.append_assoc]
      · have hr3v : r3 = [] := by
          have h1 : r3 = (memUnit r3).2 := huid.symm
          rw [hbid] at hr5
          rw [h1, hr5]
        refine ⟨ds, fr, p.2.takeWhile isSpaceJS, [], [], ?_, hdsne, hdsdig, hfr,
          hspace, Or.inl rfl, Or.inl rfl⟩
        have hp2 : p.2 = p.2.takeWhile isSpaceJS ++ ([] : List Char) := by
          conv_lhs => rw [← hspsplit]
          rw [hr3v]
        conv_lhs => rw [hl, hp2]
        simp [List.append_assoc]

/-- C9.  The memory parser returns `512M ↦ 512·1024·1024` and
`1.5G ↦ 1.5·1024³` exactly, is invariant under case folding of the
input (unit letters are matched case-insensitively), and rejects every
string outside the regex language with an error — it never silently
returns `0` for malformed input. -/
theorem parseMemory_spec :
    parseMemory "512M" = Except.ok ((512 : ℚ) * 1024 * 1024) ∧
    parseMemory "1.5G" = Except.ok ((1.5 : ℚ) * 1024 ^ 3) ∧
    (∀ l : List Char, parseMemChars (l.map upperAscii) = parseMemChars l) ∧
    (∀ s : String, ¬ MemFormat s.toList → parseMemory s = Except.error s) := by
  refine ⟨?_, ?_, parseMemChars_map_upper, ?_⟩
  · have hstruct : parseMemChars "512M".toList =
        some ((natOfDigits ('5' :: '1' :: '2' :: []) : ℚ) * (1024 : ℚ) ^ 2) := rfl
    unfold parseMemory
    rw [hstruct]
    dsimp only
    rw [(by decide : natOfDigits ('5' :: '1' :: '2' :: []) = 512)]
    norm_num
  · have hstruct : parseMemChars "1.5G".toList =
        some (((natOfDigits ('1' :: []) : ℚ) + fracOfDigits ('5' :: [])) * (1024 : ℚ) ^ 3) :=
      rfl
    unfold parseMemory
    rw [hstruct]
    dsimp only
    rw [(by decide : natOfDigits ('1' :: []) = 1)]
    unfold fracOfDigits
    rw [(by decide : natOfDigits ('5' :: []) = 5)]
    norm_num
  · intro s hform
    unfold parseMemory
    cases hp : parseMemChars s.toList with
    | none => rfl
    | some q => exact absurd (parseMemChars_sound hp) hform

/-- Closed instance of `parseMemory_spec`: the malformed string `abc` is
rejected with an error. -/
theorem parseMemory_spec_witness :
    parseMemory "abc" = Except.error "abc" :=
  parseMemory_spec.2.2.2 "abc" (by
    rintro ⟨ds, fr, sp, u, b, heq, hne, hdig, -, -, -, -⟩
    have heq2 : ('a' :: 'b' :: 'c' :: ([] : List Char)) = ds ++ fr ++ sp ++ u ++ b := heq
    cases ds with
    | nil => exact hne rfl
    | cons d dtl =>
      have h3 := heq2
      simp only [List.cons_append, List.append_assoc] at h3
      have h4 : 'a' = d := (List.cons.inj h3).1
      have h5 := hdig d (List.mem_cons_self d dtl)
      rw [← h4] at h5
      exact absurd h5 (by decide))

/-- A JavaScript-object environment: a partial map from variable names to
values. -/
def Env : Type := String → Option String

/-- Assignment of one key in an object literal (later keys override). -/
def envSet (e : Env) (k v : String) : Env :=
  fun q => if q = k then some v else e q

/-- Object spread `\x7b...a, ...b\x7d`: keys of `b` win. -/
def envMerge (a b : Env) : Env :=
  fun k => match b k with
    | some v => some v
    | none => a k

/-- The empty environment. -/
def emptyEnv : Env := fun _ => none

/-- `ClusterManager.createWorkerEnv(baseEnv, workerId, totalWorkers,
basePort)` (cluster-manager source, src/unnamed/part_006): injects
`BM2_CLUSTER`, `BM2_WORKER_ID`, `BM2_INSTANCES`, `NODE_APP_INSTANCE` and,
when `basePort` is truthy, `PORT = basePort + workerId`. -/
def createWorkerEnv (base : Env) (workerId totalWorkers : Nat) (basePort : Option Nat) : Env :=
  let e1 := envSet base "BM2_CLUSTER" "true"
  let e2 := envSet e1 "BM2_WORKER_ID" (toString workerId)
  let e3 := envSet e2 "BM2_INSTANCES" (toString totalWorkers)
  let e4 := envSet e3 "NODE_APP_INSTANCE" (toString workerId)
  match basePort with
  | some p => if p ≠ 0 then envSet e4 "PORT" (toString (p + workerId)) else e4
  | none => e4

/-- The `env` field of the config built by `ProcessManager.buildConfig`
for worker index `workerIndex` of a start with `instances` instances:
when `instances > 1` it spreads `NODE_APP_INSTANCE = workerIndex` and
`BM2_INSTANCE_ID = workerIndex` over the operator-supplied env. -/
def buildConfigEnv (optionsEnv : Env) (instances workerIndex : Nat) : Env :=
  if 1 < instances then
    envSet (envSet optionsEnv "NODE_APP_INSTANCE" (toString workerIndex))
      "BM2_INSTANCE_ID" (toString workerIndex)
  else optionsEnv

/-- The environment actually handed to the OS child of the `i`-th cluster
worker.  `ProcessManager.start` (cluster branch) builds the `i`-th
container's config with `buildConfigEnv`; `ProcessContainer.startCluster`
(src/src/process-container.ts lines 190-213) then calls
`ClusterManager.spawnWorker(this.config, 0, this.config.instances, …)`,
and `spawnWorker` computes
`createWorkerEnv(\x7b...process.env, ...config.env\x7d, workerId, total,
config.port)` — with `workerId = 0` for every container. -/
def clusterChildEnv (procEnv optionsEnv : Env) (i n : Nat) (port : Option Nat) : Env :=
  createWorkerEnv (envMerge procEnv (buildConfigEnv optionsEnv n i)) 0 n port

/-- C3 (code bug).  For a cluster start with `instances = 2` and base
port 8000, the worker with index 1 receives `BM2_WORKER_ID = "0"`,
`NODE_APP_INSTANCE = "0"` and `PORT = "8000"` — not `"1"`, `"1"` and
`"8001"` as the claim (and the repository's own README) state — because
`startCluster` hardcodes worker id 0.  Only the leftover
`BM2_INSTANCE_ID` injected by `buildConfig` still carries the true
worker index. -/
theorem clusterWorkerEnv_hardcodes_zero :
    clusterChildEnv emptyEnv emptyEnv 1 2 (some 8000) "BM2_CLUSTER" = some "true" ∧
    clusterChildEnv emptyEnv emptyEnv 1 2 (some 8000) "BM2_WORKER_ID" = some "0" ∧
    clusterChildEnv emptyEnv emptyEnv 1 2 (some 8000) "BM2_INSTANCES" = some "2" ∧
    clusterChildEnv emptyEnv emptyEnv 1 2 (some 8000) "NODE_APP_INSTANCE" = some "0" ∧
    clusterChildEnv emptyEnv emptyEnv 1 2 (some 8000) "PORT" = some "8000" ∧
    clusterChildEnv emptyEnv emptyEnv 1 2 (some 8000) "BM2_INSTANCE_ID" = some "1" := by
  refine ⟨?_, ?_, ?_, ?_, ?_, ?_⟩ <;> decide

/-- One iteration of `GracefulReload.reload` (src/src/graceful-reload.ts,
lines 29-66) for one container: record `oldPid`, call
`container.start()` (spawning only if `start` does not take its
`status === "online"` early return), wait, then `process.kill(oldPid,
SIGTERM)` when `oldPid` is set.  Returns the container after the
iteration, the number of OS children spawned, and the pids signalled. -/
def greloadOne (freshPid now : Nat) (c : Container) : Container × Nat × List Nat :=
  let oldPid := c.pid
  let spawned := if startSpawns c then 1 else 0
  let c1 := startC freshPid now c
  let kills := match oldPid with
    | some p => [p]
    | none => []
  (c1, spawned, kills)

/-- `GracefulReload.reload` over a list of containers, each paired with
the pid the OS would hand to a fresh spawn. -/
def gracefulReload (now : Nat) : List (Container × Nat) → List Container × Nat × List Nat
  | [] => ([], 0, [])
  | (c, fresh) :: rest =>
    let r := greloadOne fresh now c
    let rr := gracefulReload now rest
    (r.1 :: rr.1, r.2.1 + rr.2.1, r.2.2 ++ rr.2.2)

/-- An online container with pid 100, reachable from a fresh container. -/
def c2cex : Container := startC 100 0 (initC true 16 1000)

/-- C2 (code bug).  Reloading an online container spawns no new child at
all: `ProcessContainer.start` returns immediately because the status is
already `online`, so the rolling reload leaves the container bit-for-bit
unchanged (same pid 100, zero spawns) and then SIGTERMs pid 100 — the
service's only running child.  The claim (and the repository's own README)
requires a new child spawned while the old one still runs and a fresh pid
after the reload. -/
theorem gracefulReload_online_spawns_nothing :
    Reachable (initC true 16 1000) c2cex ∧
    c2cex.status = Status.online ∧
    c2cex.pid = some 100 ∧
    gracefulReload 5000 [(c2cex, 200)] = ([c2cex], 0, [100]) := by
  refine ⟨Relation.ReflTransGen.single (Step.start 100 0), ?_, ?_, ?_⟩ <;> decide

/-- Execution mode of a service, from src/src/types.ts. -/
inductive ExecMode where
  | fork
  | cluster
deriving DecidableEq, Repr

/-- The `instances` option as JavaScript sees it: absent, a number, or a
string. -/
inductive InstArg where
  | undef
  | num (n : Int)
  | str (s : String)
deriving DecidableEq, Repr

/-- The `watch` option: absent, a boolean, or an array of paths. -/
inductive WatchArg where
  | undef
  | bool (b : Bool)
  | paths (l : List String)
deriving DecidableEq, Repr

/-- A `string | number` memory amount (`maxMemoryRestart`, `logMaxSize`). -/
inductive MemInput where
  | str (s : String)
  | num (q : ℚ)
deriving DecidableEq, Repr

/-- JavaScript truthiness of a `string | number` value. -/
def memTruthy : MemInput → Bool
  | MemInput.str s => !(s == "")
  | MemInput.num q => !(q == 0)

/-- `parseMemory` on a `string | number`: a number is returned as is
(first line of the source function), a string goes through the regex. -/
def parseMemoryJS : MemInput → Except String ℚ
  | MemInput.num q => Except.ok q
  | MemInput.str s => parseMemory s

/-- Leading decimal digits of a character list, as a number. -/
def digitsPrefix (l : List Char) : Option Nat :=
  let d := l.takeWhile isDigitJS
  if d.isEmpty then none else some (natOfDigits d)

/-- JavaScript `parseInt` on a string (`NaN` becomes `none`): skip
whitespace, optional sign, leading digits. -/
def parseIntJS (s : String) : Option Int :=
  match s.toList.dropWhile isSpaceJS with
  | '-' :: rest => (digitsPrefix rest).map (fun n => -(n : Int))
  | '+' :: rest => (digitsPrefix rest).map (fun n => (n : Int))
  | l => (digitsPrefix l).map (fun n => (n : Int))

/-- `ClusterManager.resolveInstances` (cluster-manager source):
`undefined`/`0 ↦ 1`, `"max"`/`"-1"`/`-1 ↦` host cpu count,
other strings via `parseInt(s) || 1`, other numbers as given.
`cpus` models `getCpuCount()`. -/
def resolveInstances (cpus : Nat) : InstArg → Int
  | InstArg.undef => 1
  | InstArg.num n =>
    if n = 0 then 1 else if n = -1 then (cpus : Int) else n
  | InstArg.str s =>
    if s = "max" ∨ s = "-1" then (cpus : Int)
    else
      match parseIntJS s with
      | some v => if v = 0 then 1 else v
      | none => 1

/-- An environment as a JavaScript object: an ordered list of key/value
pairs (insertion order, later assignments replace in place). -/
abbrev EnvL : Type := List (String × String)

/-- Key assignment with JavaScript-object semantics: replace in place if
the key exists, append otherwise. -/
def envLSet (e : EnvL) (k v : String) : EnvL :=
  if e.any (fun p => p.1 = k) then e.map (fun p => if p.1 = k then (k, v) else p)
  else e ++ [(k, v)]

/-- The fully resolved `ProcessDescription` built by
`ProcessManager.buildConfig` (process-manager source).  `namespace` is a
Lean keyword, so the field is called `nspace`. -/
structure PConfig where
  id : Nat
  name : String
  script : String
  args : List String
  cwd : String
  env : EnvL
  instances : Nat
  execMode : ExecMode
  autorestart : Bool
  maxRestarts : Nat
  minUptime : Nat
  maxMemoryRestart : Option ℚ
  watch : Bool
  watchPaths : Option (List String)
  ignoreWatch : List String
  cronRestart : Option String
  interpreter : Option String
  interpreterArgs : Option (List String)
  mergeLogs : Bool
  logDateFormat : Option String
  errorFile : Option String
  outFile : Option String
  killTimeout : Nat
  restartDelay : Nat
  port : Option Nat
  healthCheckUrl : Option String
  healthCheckInterval : Option Nat
  healthCheckTimeout : Option Nat
  healthCheckMaxFails : Option Nat
  logMaxSize : ℚ
  logRetain : Nat
  logCompress : Option Bool
  waitReady : Option Bool
  listenTimeout : Option Nat
  nspace : Option String
  nodeArgs : Option (List String)
  sourceMapSupport : Option Bool
  treekill : Bool
deriving DecidableEq, Repr

/-- `StartOptions` (src/src/types.ts): every field the operator may pass
to `start`. -/
structure SOptions where
  name : Option String
  script : String
  args : Option (List String)
  cwd : Option String
  env : Option EnvL
  instances : InstArg
  execMode : Option ExecMode
  autorestart : Option Bool
  maxRestarts : Option Nat
  minUptime : Option Nat
  maxMemoryRestart : Option MemInput
  watch : WatchArg
  ignoreWatch : Option (List String)
  interpreter : Option String
  interpreterArgs : Option (List String)
  mergeLogs : Option Bool
  logDateFormat : Option String
  errorFile : Option String
  outFile : Option String
  killTimeout : Option Nat
  restartDelay : Option Nat
  cron : Option String
  port : Option Nat
  healthCheckUrl : Option String
  healthCheckInterval : Option Nat
  healthCheckTimeout : Option Nat
  healthCheckMaxFails : Option Nat
  logMaxSize : Option MemInput
  logRetain : Option Nat
  logCompress : Option Bool
  waitReady : Option Bool
  listenTimeout : Option Nat
  nspace : Option String
  nodeArgs : Option (List String)
  sourceMapSupport : Option Bool
deriving Repr

/-- Word character of the regex class `\w`. -/
def wordChar (c : Char) : Bool :=
  decide ((48 ≤ c.toNat ∧ c.toNat ≤ 57) ∨ (65 ≤ c.toNat ∧ c.toNat ≤ 90) ∨
    (97 ≤ c.toNat ∧ c.toNat ≤ 122) ∨ c.toNat = 95)

/-- `replace(/\.\w+$/, "")`: drop a final dot followed by one or more
word characters. -/
def stripExt (l : List Char) : List Char :=
  let r := l.reverse
  let w := r.takeWhile wordChar
  if w.isEmpty then l
  else
    match r.drop w.length with
    | c :: rest => if c = '.' then rest.reverse else l
    | [] => l

/-- Name defaulting in `ProcessManager.start`:
`options.name || script.split("/").pop()?.replace(/\.\w+$/, "") ||
app-<id>` (JavaScript `||`, so empty strings fall through). -/
def defaultName (oname : Option String) (script : String) (id : Nat) : String :=
  let base := String.mk (stripExt (((script.splitOn "/").getLastD "").toList))
  let fallback := if base = "" then "app-" ++ toString id else base
  match oname with
  | some n => if n = "" then fallback else n
  | none => fallback

/-- JavaScript `options.cwd || process.cwd()`. -/
def jsCwd (ocwd : Option String) (procCwd : String) : String :=
  match ocwd with
  | some s => if s = "" then procCwd else s
  | none => procCwd

/-- `ProcessManager.buildConfig(id, name, options, instances,
workerIndex)`, translated field by field.  `procCwd` models
`process.cwd()`.  The result is `none` exactly when a present, truthy
`maxMemoryRestart`/`logMaxSize` fails `parseMemory` (the source throws
there). -/
def buildConfig (procCwd : String) (id : Nat) (name : String) (o : SOptions)
    (instances workerIndex : Nat) : Option PConfig :=
  let mmrE : Option (Option ℚ) :=
    match o.maxMemoryRestart with
    | none => some none
    | some m =>
      if memTruthy m then
        match parseMemoryJS m with
        | Except.ok q => some (some q)
        | Except.error _ => none
      else some none
  let lmsE : Option ℚ :=
    match o.logMaxSize with
    | none => some ((10485760 : ℚ))
    | some m =>
      if memTruthy m then
        match parseMemoryJS m with
        | Except.ok q => some q
        | Except.error _ => none
      else some ((10485760 : ℚ))
  match mmrE, lmsE with
  | some mmr, some lms =>
    some
      { id := id
        name := name
        script := o.script
        args := o.args.getD []
        cwd := jsCwd o.cwd procCwd
        env :=
          (if 1 < instances then
            envLSet (envLSet (o.env.getD []) "NODE_APP_INSTANCE" (toString workerIndex))
              "BM2_INSTANCE_ID" (toString workerIndex)
          else o.env.getD [])
        instances := instances
        execMode :=
          (if 1 < instances then ExecMode.cluster else o.execMode.getD ExecMode.fork)
        autorestart := !(o.autorestart == some false)
        maxRestarts := o.maxRestarts.getD 16
        minUptime := o.minUptime.getD 1000
        maxMemoryRestart := mmr
        watch :=
          (match o.watch with
            | WatchArg.paths _ => true
            | WatchArg.bool b => b
            | WatchArg.undef => false)
        watchPaths :=
          (match o.watch with
            | WatchArg.paths l => some l
            | _ => none)
        ignoreWatch := o.ignoreWatch.getD ["node_modules", ".git", ".bm2"]
        cronRestart := o.cron
        interpreter := o.interpreter
        interpreterArgs := o.interpreterArgs
        mergeLogs := o.mergeLogs.getD false
        logDateFormat := o.logDateFormat
        errorFile := o.errorFile
        outFile := o.outFile
        killTimeout := o.killTimeout.getD 5000
        restartDelay := o.restartDelay.getD 0
        port := o.port
        healthCheckUrl := o.healthCheckUrl
        healthCheckInterval := o.healthCheckInterval
        healthCheckTimeout := o.healthCheckTimeout
        healthCheckMaxFails := o.healthCheckMaxFails
        logMaxSize := lms
        logRetain := o.logRetain.getD 5
        logCompress := o.logCompress
        waitReady := o.waitReady
        listenTimeout := o.listenTimeout
        nspace := o.nspace
        nodeArgs := o.nodeArgs
        sourceMapSupport := o.sourceMapSupport
        treekill := true }
  | _, _ => none

/-- One registry entry: a `ProcessContainer` as the `ProcessManager` sees
it (id, name, config, status and the restart counters). -/
structure Entry where
  id : Nat
  name : String
  config : PConfig
  status : Status
  restartCount : Nat
  unstableRestarts : Nat
deriving DecidableEq, Repr

/-- The `ProcessManager` registry: the `processes` map (a JavaScript
`Map`, i.e. an insertion-ordered key/value list) and the `nextId`
counter. -/
structure PM where
  processes : List (Nat × Entry)
  nextId : Nat
deriving DecidableEq, Repr

/-- The empty registry of a freshly started daemon. -/
def pmEmpty : PM := { processes := [], nextId := 0 }

/-- A container right after a successful `container.start()`:
status `online`, counters zero. -/
def startedEntry (cfg : PConfig) : Entry :=
  { id := cfg.id
    name := cfg.name
    config := cfg
    status := Status.online
    restartCount := 0
    unstableRestarts := 0 }

/-- One iteration of the creation loop in `ProcessManager.start`:
allocate `nextId`, derive the name (suffix `-<i>` only when the resolved
instance count exceeds 1), build the config, create and start the
container, insert it into the map.  No duplicate-name check of any kind
is performed. -/
def startOne (procCwd : String) (pm : PM) (o : SOptions) (resolved : Int) (i : Nat) :
    Option (PM × Entry) :=
  let id := pm.nextId
  let baseName := defaultName o.name o.script id
  let name := if 1 < resolved then baseName ++ "-" ++ toString i else baseName
  match buildConfig procCwd id name o resolved.toNat i with
  | none => none
  | some cfg =>
    let e := startedEntry cfg
    some ({ processes := pm.processes ++ [(id, e)], nextId := id + 1 }, e)

/-- The creation loop over worker indices. -/
def startFold (procCwd : String) (o : SOptions) (resolved : Int) :
    List Nat → PM → Option (PM × List Entry)
  | [], pm => some (pm, [])
  | i :: rest, pm =>
    match startOne procCwd pm o resolved i with
    | none => none
    | some (pm2, e) =>
      match startFold procCwd o resolved rest pm2 with
      | none => none
      | some (pm3, es) => some (pm3, e :: es)

/-- `ProcessManager.start(options)` (process-manager source): resolve the
instance count, then create one container per worker (cluster) or a
single container (fork).  `cpus` models `getCpuCount()`, `procCwd`
models `process.cwd()`.  `none` models a thrown exception
(`parseMemory` failure). -/
def pmStart (cpus : Nat) (procCwd : String) (pm : PM) (o : SOptions) :
    Option (PM × List Entry) :=
  let resolved := resolveInstances cpus o.instances
  if o.execMode = some ExecMode.cluster ∨ 1 < resolved then
    startFold procCwd o resolved (List.range resolved.toNat) pm
  else
    match startOne procCwd pm o 1 0 with
    | none => none
    | some (pm2, e) => some (pm2, [e])

/-- `ProcessManager.save()`: serialise each container's `config` and
`restartCount`, in registry order, to the dump file. -/
def pmSave (pm : PM) : List (PConfig × Nat) :=
  pm.processes.map (fun p => (p.2.config, p.2.restartCount))

/-- The `start` options `ProcessManager.resurrect()` builds from one dump
item: only name, script, args, cwd, env, autorestart, maxRestarts,
watch, `instances: 1`, execMode, port and healthCheckUrl are passed —
everything else (including the saved `restartCount`) is dropped. -/
def dumpToOptions (cfg : PConfig) : SOptions :=
  { name := some cfg.name
    script := cfg.script
    args := some cfg.args
    cwd := some cfg.cwd
    env := some cfg.env
    instances := InstArg.num 1
    execMode := some cfg.execMode
    autorestart := some cfg.autorestart
    maxRestarts := some cfg.maxRestarts
    minUptime := none
    maxMemoryRestart := none
    watch := WatchArg.bool cfg.watch
    ignoreWatch := none
    interpreter := none
    interpreterArgs := none
    mergeLogs := none
    logDateFormat := none
    errorFile := none
    outFile := none
    killTimeout := none
    restartDelay := none
    cron := none
    port := cfg.port
    healthCheckUrl := cfg.healthCheckUrl
    healthCheckInterval := none
    healthCheckTimeout := none
    healthCheckMaxFails := none
    logMaxSize := none
    logRetain := none
    logCompress := none
    waitReady := none
    listenTimeout := none
    nspace := none
    nodeArgs := none
    sourceMapSupport := none }

/-- The loop body of `ProcessManager.resurrect()`: `start` each dump
item in order; a thrown exception is caught and the whole call returns
`[]`, keeping the registry mutations made so far. -/
def pmResurrectLoop (cpus : Nat) (procCwd : String) :
    PM → List (PConfig × Nat) → PM × Option (List Entry)
  | pm, [] => (pm, some [])
  | pm, (cfg, _) :: rest =>
    match pmStart cpus procCwd pm (dumpToOptions cfg) with
    | none => (pm, none)
    | some (pm2, es) =>
      match pmResurrectLoop cpus procCwd pm2 rest with
      | (pm3, none) => (pm3, none)
      | (pm3, some tail) => (pm3, some (es ++ tail))

/-- `ProcessManager.resurrect()` on a given dump content (the file read
and JSON decode are assumed faithful; a missing file is the `[]` dump). -/
def pmResurrect (cpus : Nat) (procCwd : String) (pm : PM) (dump : List (PConfig × Nat)) :
    PM × List Entry :=
  let r := pmResurrectLoop cpus procCwd pm dump
  (r.1, r.2.getD [])

/-- All-digits test, `/^\d+$/.test(target)`. -/
def isDigitsStr (s : String) : Bool :=
  !s.isEmpty && s.toList.all isDigitJS

/-- `name.startsWith(target + "-")`, computed on character lists. -/
def startsWithDash (t s : String) : Bool :=
  (t.toList ++ ['-']).isPrefixOf s.toList

/-- `ProcessManager.resolveTarget(target)` (process-manager source):
`"all"` returns every container; an all-digits target is an id lookup in
the map; anything else filters by exact name, name prefix `target-`, or
namespace equality. -/
def resolveTarget (pm : PM) (t : String) : List Entry :=
  if t = "all" then pm.processes.map (fun p => p.2)
  else if isDigitsStr t then
    match pm.processes.find? (fun p => p.1 == natOfDigits t.toList) with
    | some p => [p.2]
    | none => []
  else
    (pm.processes.map (fun p => p.2)).filter (fun e =>
      (e.name == t) || startsWithDash t e.name || (e.config.nspace == some t))

/-- Options with only a script, everything else absent. -/
def baseOptions (script : String) : SOptions :=
  { name := none
    script := script
    args := none
    cwd := none
    env := none
    instances := InstArg.undef
    execMode := none
    autorestart := none
    maxRestarts := none
    minUptime := none
    maxMemoryRestart := none
    watch := WatchArg.undef
    ignoreWatch := none
    interpreter := none
    interpreterArgs := none
    mergeLogs := none
    logDateFormat := none
    errorFile := none
    outFile := none
    killTimeout := none
    restartDelay := none
    cron := none
    port := none
    healthCheckUrl := none
    healthCheckInterval := none
    healthCheckTimeout := none
    healthCheckMaxFails := none
    logMaxSize := none
    logRetain := none
    logCompress := none
    waitReady := none
    listenTimeout := none
    nspace := none
    nodeArgs := none
    sourceMapSupport := none }

/-- A start request named `web` for script `app.ts`. -/
def oWeb : SOptions := { baseOptions "app.ts" with name := some "web" }

/-- Starting `oWeb` twice on an empty registry. -/
def pmWeb2 : Option (PM × List Entry) :=
  (pmStart 4 "/srv" pmEmpty oWeb).bind fun r => pmStart 4 "/srv" r.1 oWeb

/-- C1 counterexample.  `start(spec); start(spec)` with the same name
`web` succeeds both times and leaves two distinct live entries (ids 0
and 1) carrying the same name — no `AlreadyExists` rejection and no
no-op.  The claim says a duplicate name is rejected or ignored, never
duplicated. -/
theorem start_duplicate_name_creates_second_entry :
    pmWeb2.map (fun r => r.1.processes.map (fun p => (p.2.id, p.2.name, p.2.status))) =
      some [(0, "web", Status.online), (1, "web", Status.online)] := by
  decide

lemma buildConfig_isSome {procCwd : String} {id : Nat} {name : String} {o : SOptions}
    {instances workerIndex : Nat}
    (hmm : o.maxMemoryRestart = none) (hlms : o.logMaxSize = none) :
    ∃ cfg, buildConfig procCwd id name o instances workerIndex = some cfg ∧
      cfg.name = name ∧ cfg.id = id := by
  unfold buildConfig
  rw [hmm, hlms]
  exact ⟨_, rfl, rfl, rfl⟩

/-- C1 (amended).  `ProcessManager.start` performs no duplicate-name
check at all: for any registry — in particular one that already holds an
entry of the same name — a single-instance start with a literal name `n`
succeeds and appends one more online entry named `n` under the fresh id
`nextId`. -/
theorem start_never_rejects_duplicate_names (cpus : Nat) (procCwd : String) (pm : PM)
    (o : SOptions) (n : String)
    (hn : o.name = some n) (hne : n ≠ "")
    (hinst : o.instances = InstArg.undef ∨ o.instances = InstArg.num 1)
    (hmode : o.execMode ≠ some ExecMode.cluster)
    (hmm : o.maxMemoryRestart = none) (hlms : o.logMaxSize = none) :
    ∃ e : Entry,
      pmStart cpus procCwd pm o =
        some ({ processes := pm.processes ++ [(pm.nextId, e)], nextId := pm.nextId + 1 }, [e]) ∧
      e.name = n ∧ e.id = pm.nextId ∧ e.status = Status.online := by
  have hres : resolveInstances cpus o.instances = 1 := by
    rcases hinst with h | h <;> rw [h] <;> rfl
  have hdn : defaultName o.name o.script pm.nextId = n := by
    rw [hn]
    unfold defaultName
    dsimp only
    rw [if_neg hne]
  obtain ⟨cfg, hcfg, hcn, hci⟩ :=
    @buildConfig_isSome procCwd pm.nextId n o 1 0 hmm hlms
  unfold pmStart
  rw [hres]
  rw [if_neg (by
    rintro (h | h)
    · exact hmode h
    · omega)]
  unfold startOne
  dsimp only
  rw [hdn, if_neg (by omega : ¬(1 : Int) < 1)]
  simp only [Int.toNat_one]
  rw [hcfg]
  exact ⟨startedEntry cfg, rfl, by rw [startedEntry, hcn], by rw [startedEntry, hci], rfl⟩

/-- The registry after the first `start` of `oWeb`. -/
def pmWeb1 : PM :=
  match pmStart 4 "/srv" pmEmpty oWeb with
  | some r => r.1
  | none => pmEmpty

/-- Closed instance of `start_never_rejects_duplicate_names` on a
registry that already holds a live entry named `web`. -/
theorem start_never_rejects_duplicate_names_witness :
    ∃ e : Entry,
      pmStart 4 "/srv" pmWeb1 oWeb =
        some ({ processes := pmWeb1.processes ++ [(pmWeb1.nextId, e)],
                nextId := pmWeb1.nextId + 1 }, [e]) ∧
      e.name = "web" ∧ e.id = pmWeb1.nextId ∧ e.status = Status.online :=
  start_never_rejects_duplicate_names 4 "/srv" pmWeb1 oWeb "web" rfl (by decide)
    (Or.inl rfl) (by decide) rfl rfl

/-- A concrete fully resolved config (the shape `buildConfig` produces on
default options), used as input material for registry states. -/
def cfg0 : PConfig :=
  { id := 0
    name := "api"
    script := "api.ts"
    args := []
    cwd := "/srv"
    env := []
    instances := 1
    execMode := ExecMode.fork
    autorestart := true
    maxRestarts := 16
    minUptime := 5000
    maxMemoryRestart := none
    watch := false
    watchPaths := none
    ignoreWatch := ["node_modules", ".git", ".bm2"]
    cronRestart := none
    interpreter := none
    interpreterArgs := none
    mergeLogs := false
    logDateFormat := none
    errorFile := none
    outFile := none
    killTimeout := 5000
    restartDelay := 0
    port := none
    healthCheckUrl := none
    healthCheckInterval := none
    healthCheckTimeout := none
    healthCheckMaxFails := none
    logMaxSize := (10485760 : ℚ)
    logRetain := 5
    logCompress := none
    waitReady := none
    listenTimeout := none
    nspace := none
    nodeArgs := none
    sourceMapSupport := none
    treekill := true }

/-- An online entry named `api-server` with no namespace. -/
def eApiServer : Entry :=
  { id := 0
    name := "api-server"
    config := { cfg0 with name := "api-server" }
    status := Status.online
    restartCount := 0
    unstableRestarts := 0 }

/-- A registry holding only `api-server`. -/
def pmApi : PM := { processes := [(0, eApiServer)], nextId := 1 }

/-- The name-matching rule exactly as the claim states it: exact name,
or the name is `target-` followed by one or more digits, or the
namespace equals the target. -/
def claimNameMatch (t : String) (e : Entry) : Bool :=
  (e.name == t) ||
  (startsWithDash t e.name &&
    (!(e.name.toList.drop (t.toList.length + 1)).isEmpty &&
      (e.name.toList.drop (t.toList.length + 1)).all isDigitJS)) ||
  (e.config.nspace == some t)

/-- C7 counterexample.  `resolve("api")` returns the entry named
`api-server`, although `api-server` is neither named `api`, nor `api-`
followed by digits, nor in namespace `api`: the code matches any
`target-` prefix, the claim requires a digit suffix. -/
theorem resolveTarget_prefix_needs_no_digits :
    (resolveTarget pmApi "api").map (fun e => (e.id, e.name)) = [(0, "api-server")] ∧
    claimNameMatch "api" eApiServer = false := by
  refine ⟨?_, ?_⟩ <;> decide

/-- C7 (amended).  `resolve("all")` returns all entries; an all-digits
target returns at most one entry (and `[]` when the id is absent); any
other target returns exactly the entries whose name equals the target,
or whose name starts with `target-` (any suffix, digits not required),
or whose namespace equals the target; a target matching nothing yields
`[]`, not an error. -/
theorem resolveTarget_characterization (pm : PM) (t : String) :
    (t = "all" → resolveTarget pm t = pm.processes.map (fun p => p.2)) ∧
    (isDigitsStr t = true → (resolveTarget pm t).length ≤ 1) ∧
    (t ≠ "all" → isDigitsStr t = false →
      ∀ e, e ∈ resolveTarget pm t ↔
        (e ∈ pm.processes.map (fun p => p.2) ∧
          (e.name = t ∨ startsWithDash t e.name = true ∨ e.config.nspace = some t))) ∧
    (t ≠ "all" → isDigitsStr t = false →
      (∀ p ∈ pm.processes,
        ¬(p.2.name = t ∨ startsWithDash t p.2.name = true ∨ p.2.config.nspace = some t)) →
      resolveTarget pm t = []) ∧
    (isDigitsStr t = true →
      pm.processes.find? (fun p => p.1 == natOfDigits t.toList) = none →
      resolveTarget pm t = []) := by
  refine ⟨?_, ?_, ?_, ?_, ?_⟩
  · intro h
    unfold resolveTarget
    rw [if_pos h]
  · intro h
    have hall : t ≠ "all" := by
      rintro rfl
      exact absurd h (by decide)
    unfold resolveTarget
    rw [if_neg hall, if_pos h]
    cases pm.processes.find? (fun p => p.1 == natOfDigits t.toList) <;> simp
  · intro hall hdig e
    unfold resolveTarget
    rw [if_neg hall, if_neg (by simp [hdig])]
    rw [List.mem_filter]
    simp only [Bool.or_eq_true, Bool.and_eq_true, beq_iff_eq]
    tauto
  · intro hall hdig hnone
    unfold resolveTarget
    rw [if_neg hall, if_neg (by simp [hdig])]
    rw [List.filter_eq_nil_iff]
    intro e he
    obtain ⟨p, hp, hpe⟩ := List.mem_map.mp he
    have := hnone p hp
    rw [hpe] at this
    simp only [Bool.or_eq_true, beq_iff_eq]
    tauto
  · intro hdig hfind
    have hall : t ≠ "all" := by
      rintro rfl
      exact absurd hdig (by decide)
    unfold resolveTarget
    rw [if_neg hall, if_pos hdig, hfind]

/-- Closed instance of `resolveTarget_characterization`: in `pmApi` the
digit target `7` resolves to nothing, and the name target `zzz` resolves
to `[]` as a success. -/
theorem resolveTarget_characterization_witness :
    resolveTarget pmApi "7" = [] ∧ resolveTarget pmApi "zzz" = [] :=
  ⟨(resolveTarget_characterization pmApi "7").2.2.2.2 (by decide) (by decide),
   (resolveTarget_characterization pmApi "zzz").2.2.2.1 (by decide) (by decide)
     (by decide)⟩

/-- The config `resurrect` actually rebuilds from a saved config `cfg`:
`buildConfig` applied to the reduced option set of `dumpToOptions`.
Name, script, args, env, autorestart, maxRestarts, watch, execMode, port
and healthCheckUrl survive; `cwd` survives when nonempty; every other
field reverts to its default. -/
def resConfig (procCwd : String) (id : Nat) (cfg : PConfig) : PConfig :=
  { id := id
    name := cfg.name
    script := cfg.script
    args := cfg.args
    cwd := jsCwd (some cfg.cwd) procCwd
    env := cfg.env
    instances := 1
    execMode := cfg.execMode
    autorestart := cfg.autorestart
    maxRestarts := cfg.maxRestarts
    minUptime := 1000
    maxMemoryRestart := none
    watch := cfg.watch
    watchPaths := none
    ignoreWatch := ["node_modules", ".git", ".bm2"]
    cronRestart := none
    interpreter := none
    interpreterArgs := none
    mergeLogs := false
    logDateFormat := none
    errorFile := none
    outFile := none
    killTimeout := 5000
    restartDelay := 0
    port := cfg.port
    healthCheckUrl := cfg.healthCheckUrl
    healthCheckInterval := none
    healthCheckTimeout := none
    healthCheckMaxFails := none
    logMaxSize := (10485760 : ℚ)
    logRetain := 5
    logCompress := none
    waitReady := none
    listenTimeout := none
    nspace := none
    nodeArgs := none
    sourceMapSupport := none
    treekill := true }

/-- The entry `resurrect` creates for a saved config, under a fresh id:
online, with both restart counters at zero. -/
def resEntry (procCwd : String) (id : Nat) (cfg : PConfig) : Entry :=
  startedEntry (resConfig procCwd id cfg)

lemma buildConfig_dump (procCwd : String) (id : Nat) (cfg : PConfig) :
    buildConfig procCwd id cfg.name (dumpToOptions cfg) 1 0 =
      some (resConfig procCwd id cfg) := by
  cases hcb : cfg.autorestart <;>
    (unfold buildConfig dumpToOptions resConfig
     rw [hcb]
     rfl)

lemma startOne_dump (procCwd : String) (pm : PM) (cfg : PConfig) (hn : cfg.name ≠ "") :
    startOne procCwd pm (dumpToOptions cfg) 1 0 =
      some ({ processes := pm.processes ++ [(pm.nextId, resEntry procCwd pm.nextId cfg)],
              nextId := pm.nextId + 1 }, resEntry procCwd pm.nextId cfg) := by
  have hdn : defaultName (dumpToOptions cfg).name (dumpToOptions cfg).script pm.nextId =
      cfg.name := by
    unfold defaultName dumpToOptions
    dsimp only
    rw [if_neg hn]
  unfold startOne
  dsimp only
  rw [hdn, if_neg (by omega : ¬(1 : Int) < 1)]
  simp only [Int.toNat_one]
  rw [buildConfig_dump]
  rfl

lemma pmStart_dump (cpus : Nat) (procCwd : String) (pm : PM) (cfg : PConfig)
    (hn : cfg.name ≠ "") :
    pmStart cpus procCwd pm (dumpToOptions cfg) =
      some ({ processes := pm.processes ++ [(pm.nextId, resEntry procCwd pm.nextId cfg)],
              nextId := pm.nextId + 1 }, [resEntry procCwd pm.nextId cfg]) := by
  have hres : resolveInstances cpus (dumpToOptions cfg).instances = 1 := rfl
  unfold pmStart
  rw [hres]
  cases hm : cfg.execMode with
  | fork =>
    rw [if_neg (by
      rintro (h | h)
      · rw [show (dumpToOptions cfg).execMode = some cfg.execMode from rfl, hm] at h
        exact absurd (Option.some.inj h) (by decide)
      · omega)]
    rw [startOne_dump procCwd pm cfg hn]
  | cluster =>
    rw [if_pos (Or.inl (by
      rw [show (dumpToOptions cfg).execMode = some cfg.execMode from rfl, hm]))]
    rw [show List.range (Int.toNat 1) = [0] from rfl]
    unfold startFold
    rw [startOne_dump procCwd pm cfg hn]
    rfl

/-- The id/entry pairs `resurrect` appends to the registry, with ids
assigned sequentially from `n`. -/
def resurrectPairs (procCwd : String) : Nat → List (PConfig × Nat) → List (Nat × Entry)
  | _, [] => []
  | n, (cfg, _) :: rest => (n, resEntry procCwd n cfg) :: resurrectPairs procCwd (n + 1) rest

/-- The entries `resurrect` returns, with ids assigned sequentially. -/
def resurrectEntries (procCwd : String) : Nat → List (PConfig × Nat) → List Entry
  | _, [] => []
  | n, (cfg, _) :: rest => resEntry procCwd n cfg :: resurrectEntries procCwd (n + 1) rest

lemma pmResurrectLoop_run (cpus : Nat) (procCwd : String) (dump : List (PConfig × Nat)) :
    ∀ pm : PM, (∀ item ∈ dump, item.1.name ≠ "") →
      pmResurrectLoop cpus procCwd pm dump =
        ({ processes := pm.processes ++ resurrectPairs procCwd pm.nextId dump,
           nextId := pm.nextId + dump.length },
         some (resurrectEntries procCwd pm.nextId dump)) := by
  induction dump with
  | nil =>
    intro pm h
    simp [pmResurrectLoop, resurrectPairs, resurrectEntries]
  | cons item rest ih =>
    intro pm h
    obtain ⟨cfg, rc⟩ := item
    have hn : cfg.name ≠ "" := h (cfg, rc) (List.mem_cons_self _ _)
    unfold pmResurrectLoop
    rw [pmStart_dump cpus procCwd pm cfg hn]
    dsimp only
    rw [ih _ (fun it hit => h it (List.mem_cons_of_mem _ hit))]
    dsimp only
    rw [show resurrectPairs procCwd pm.nextId ((cfg, rc) :: rest) =
        (pm.nextId, resEntry procCwd pm.nextId cfg) ::
          resurrectPairs procCwd (pm.nextId + 1) rest from rfl,
      show resurrectEntries procCwd pm.nextId ((cfg, rc) :: rest) =
        resEntry procCwd pm.nextId cfg ::
          resurrectEntries procCwd (pm.nextId + 1) rest from rfl]
    refine congrArg₂ Prod.mk ?_ (by simp)
    congr 1
    · simp
    · simp only [List.length_cons]
      omega

lemma resurrectEntries_names (procCwd : String) (dump : List (PConfig × Nat)) :
    ∀ n, (resurrectEntries procCwd n dump).map (fun e => e.name) =
      dump.map (fun i => i.1.name) := by
  induction dump with
  | nil => intro n; rfl
  | cons item rest ih =>
    intro n
    obtain ⟨cfg, rc⟩ := item
    unfold resurrectEntries
    simp only [List.map_cons]
    rw [ih]
    rfl

lemma resurrectEntries_spec (procCwd : String) (dump : List (PConfig × Nat)) :
    ∀ n, (resurrectEntries procCwd n dump).map (fun e =>
        (e.config.script, e.config.args, e.config.cwd, e.config.env,
         e.config.autorestart, e.config.maxRestarts, e.config.watch,
         e.config.execMode, e.config.port, e.config.healthCheckUrl)) =
      dump.map (fun i =>
        (i.1.script, i.1.args, jsCwd (some i.1.cwd) procCwd, i.1.env,
         i.1.autorestart, i.1.maxRestarts, i.1.watch,
         i.1.execMode, i.1.port, i.1.healthCheckUrl)) := by
  induction dump with
  | nil => intro n; rfl
  | cons item rest ih =>
    intro n
    obtain ⟨cfg, rc⟩ := item
    unfold resurrectEntries
    simp only [List.map_cons]
    rw [ih]
    rfl

lemma resurrectEntries_defaults (procCwd : String) (dump : List (PConfig × Nat)) :
    ∀ n, ∀ e ∈ resurrectEntries procCwd n dump,
      e.restartCount = 0 ∧ e.unstableRestarts = 0 ∧ e.status = Status.online ∧
      e.config.minUptime = 1000 ∧ e.config.killTimeout = 5000 ∧
      e.config.restartDelay = 0 ∧ e.config.maxMemoryRestart = none ∧
      e.config.cronRestart = none ∧ e.config.logRetain = 5 ∧
      e.config.instances = 1 := by
  induction dump with
  | nil => intro n e he; exact absurd he (by simp [resurrectEntries])
  | cons item rest ih =>
    intro n e he
    obtain ⟨cfg, rc⟩ := item
    unfold resurrectEntries at he
    rcases List.mem_cons.mp he with he1 | he2
    · subst he1
      exact ⟨rfl, rfl, rfl, rfl, rfl, rfl, rfl, rfl, rfl, rfl⟩
    · exact ih _ e he2

lemma resurrectEntries_ids (procCwd : String) (dump : List (PConfig × Nat)) :
    ∀ n, (resurrectEntries procCwd n dump).map (fun e => e.id) =
      List.range' n dump.length := by
  induction dump with
  | nil => intro n; rfl
  | cons item rest ih =>
    intro n
    obtain ⟨cfg, rc⟩ := item
    unfold resurrectEntries
    simp only [List.map_cons, List.length_cons, List.range'_succ]
    rw [ih]
    rfl

/-- C4 (amended).  `save(); resurrect()` restores one entry per saved
entry, in order, preserving the name and only the spec fields
`resurrect` forwards (script, args, env, autorestart, max_restarts,
watch, exec_mode, port, health_check_url; cwd when nonempty); the
restart counters restart at 0, all other spec fields revert to their
defaults, and the new ids are assigned sequentially from the fresh
registry's `nextId`. -/
theorem save_resurrect_restores_subset (cpus : Nat) (procCwd : String) (pm pmf : PM)
    (hf : pmf.processes = [])
    (hnames : ∀ p ∈ pm.processes, p.2.config.name ≠ "") :
    ((pmResurrect cpus procCwd pmf (pmSave pm)).2).map (fun e => e.name) =
        pm.processes.map (fun p => p.2.config.name) ∧
    ((pmResurrect cpus procCwd pmf (pmSave pm)).2).map (fun e =>
        (e.config.script, e.config.args, e.config.cwd, e.config.env,
         e.config.autorestart, e.config.maxRestarts, e.config.watch,
         e.config.execMode, e.config.port, e.config.healthCheckUrl)) =
      pm.processes.map (fun p =>
        (p.2.config.script, p.2.config.args, jsCwd (some p.2.config.cwd) procCwd,
         p.2.config.env, p.2.config.autorestart, p.2.config.maxRestarts,
         p.2.config.watch, p.2.config.execMode, p.2.config.port,
         p.2.config.healthCheckUrl)) ∧
    (∀ e ∈ (pmResurrect cpus procCwd pmf (pmSave pm)).2,
      e.restartCount = 0 ∧ e.unstableRestarts = 0 ∧ e.status = Status.online ∧
      e.config.minUptime = 1000 ∧ e.config.killTimeout = 5000 ∧
      e.config.restartDelay = 0 ∧ e.config.maxMemoryRestart = none ∧
      e.config.cronRestart = none ∧ e.config.logRetain = 5 ∧
      e.config.instances = 1) ∧
    ((pmResurrect cpus procCwd pmf (pmSave pm)).2).map (fun e => e.id) =
      List.range' pmf.nextId pm.processes.length := by
  have hdn : ∀ item ∈ pmSave pm, item.1.name ≠ "" := by
    intro item hit
    obtain ⟨p, hp, hpe⟩ := List.mem_map.mp hit
    rw [← hpe]
    exact hnames p hp
  have hrun := pmResurrectLoop_run cpus procCwd (pmSave pm) pmf hdn
  have hres : (pmResurrect cpus procCwd pmf (pmSave pm)).2 =
      resurrectEntries procCwd pmf.nextId (pmSave pm) := by
    unfold pmResurrect
    rw [hrun]
    rfl
  rw [hres]
  refine ⟨?_, ?_, resurrectEntries_defaults procCwd (pmSave pm) pmf.nextId, ?_⟩
  · rw [resurrectEntries_names]
    unfold pmSave
    rw [List.map_map]
    rfl
  · rw [resurrectEntries_spec]
    unfold pmSave
    rw [List.map_map]
    rfl
  · rw [resurrectEntries_ids]
    unfold pmSave
    rw [List.length_map]

/-- A registry holding one entry named `api` with `restart_count = 2` and
`min_uptime = 5000`. -/
def pmC4 : PM :=
  { processes :=
      [(0, { id := 0, name := "api", config := cfg0, status := Status.online,
             restartCount := 2, unstableRestarts := 0 })]
    nextId := 1 }

/-- C4 counterexample.  `save()` records `restart_count = 2` and
`min_uptime = 5000` for entry `api`, but `resurrect()` brings the entry
back with `restart_count = 0` and `min_uptime` reset to the default
1000: the restored entry is not equal in restart_count nor in full spec
content, refuting the round-trip claim. -/
theorem save_resurrect_drops_restart_count :
    (pmSave pmC4).map (fun i => (i.1.name, i.2, i.1.minUptime)) = [("api", 2, 5000)] ∧
    ((pmResurrect 4 "/srv" pmEmpty (pmSave pmC4)).2).map
        (fun e => (e.name, e.restartCount, e.config.minUptime)) = [("api", 0, 1000)] := by
  refine ⟨?_, ?_⟩ <;> decide

/-- Closed instance of `save_resurrect_restores_subset` on `pmC4`. -/
theorem save_resurrect_restores_subset_witness :
    ((pmResurrect 4 "/srv" pmEmpty (pmSave pmC4)).2).map (fun e => e.name) =
      pmC4.processes.map (fun p => p.2.config.name) :=
  (save_resurrect_restores_subset 4 "/srv" pmC4 pmEmpty rfl (by decide)).1

/-- The directory around one log file `f`: the active file (`main`), the
plain rotated segments `f.j` (`rot`, keyed by the numeric suffix `j ≥ 1`)
and the compressed segments `f.j.gz` (`gz`).  Contents are byte strings;
`existsSync` is `isSome`/key membership. -/
structure LogFS where
  main : Option String
  rot : List (Nat × String)
  gz : List (Nat × String)
deriving DecidableEq, Repr

/-- Directory lookup of `f.j` (first pair with key `j`). -/
def lookupA : List (Nat × String) → Nat → Option String
  | [], _ => none
  | p :: tl, j => if p.1 = j then some p.2 else lookupA tl j

/-- `unlinkSync` of `f.j`. -/
def eraseA (l : List (Nat × String)) (j : Nat) : List (Nat × String) :=
  l.filter (fun p => !(p.1 == j))

/-- Writing `f.j` (the destination of `renameSync` is replaced). -/
def setA (l : List (Nat × String)) (j : Nat) (c : String) : List (Nat × String) :=
  eraseA l j ++ [(j, c)]

/-- `LogRotateOptions` from src/src/types.ts. -/
structure LogRotateOptions where
  maxSize : Nat
  retain : Nat
  compress : Bool
deriving DecidableEq, Repr

/-- One iteration of the rename loop in `LogManager.rotate` (log-manager
source, lines 145-161), at index `i`: `src = i == 1 ? f : f.(i-1)`,
`dst = f.i`; when `src` exists it is renamed onto `dst`, and with
`compress` on the freshly rotated `dst` is gzipped to `dst.gz` (content
modelled verbatim) and the plain `dst` removed. -/
def rotStep (compress : Bool) (fs : LogFS) (i : Nat) : LogFS :=
  let src := if i = 1 then fs.main else lookupA fs.rot (i - 1)
  match src with
  | none => fs
  | some c =>
    let fs1 :=
      if i = 1 then { fs with main := none }
      else { fs with rot := eraseA fs.rot (i - 1) }
    let fs2 := { fs1 with rot := setA fs1.rot i c }
    if compress then { fs2 with rot := eraseA fs2.rot i, gz := setA fs2.gz i c }
    else fs2

/-- The descending index list `[n, n-1, …, 1]` of
`for (let i = retain - 1; i >= 1; i--)`. -/
def downFrom : Nat → List Nat
  | 0 => []
  | n + 1 => (n + 1) :: downFrom n

/-- The directory name of a rotated segment, relative to the shared
prefix `f.` (all candidates share that prefix, so lexicographic order of
the full names equals lexicographic order of these suffixes). -/
def suffixName (j : Nat) (isGz : Bool) : String :=
  toString j ++ (if isGz then ".gz" else "")

/-- Insertion into a descending-sorted list (larger names first). -/
def insertDesc (x : String × Bool × Nat) :
    List (String × Bool × Nat) → List (String × Bool × Nat)
  | [] => [x]
  | y :: ys => if y.1 < x.1 then x :: y :: ys else y :: insertDesc x ys

/-- `files.sort().reverse()`: descending lexicographic sort. -/
def sortDesc (l : List (String × Bool × Nat)) : List (String × Bool × Nat) :=
  l.foldr insertDesc []

/-- The clean-excess pass of `LogManager.rotate` (lines 163-175): list
every file named `f.<suffix>`, sort the names descending, and unlink all
entries from position `retain` on. -/
def cleanup (retain : Nat) (fs : LogFS) : LogFS :=
  let entries : List (String × Bool × Nat) :=
    fs.rot.map (fun p => (suffixName p.1 false, false, p.1)) ++
      fs.gz.map (fun p => (suffixName p.1 true, true, p.1))
  let sorted := sortDesc entries
  (sorted.drop retain).foldl
    (fun acc e =>
      if e.2.1 then { acc with gz := eraseA acc.gz e.2.2 }
      else { acc with rot := eraseA acc.rot e.2.2 })
    fs

/-- `LogManager.rotate(filePath, options)` (log-manager source, lines
136-182): no-op when the file is missing or below `maxSize`; otherwise
run the rename loop from `retain - 1` down to `1`, clean excess rotated
files, and truncate the active file to zero length. -/
def rotate (opts : LogRotateOptions) (fs : LogFS) : LogFS :=
  match fs.main with
  | none => fs
  | some content =>
    if content.length < opts.maxSize then fs
    else
      let fs1 := (downFrom (opts.retain - 1)).foldl (rotStep opts.compress) fs
      let fs2 := cleanup opts.retain fs1
      { fs2 with main := some "" }

/-- A sequence of rotations: before each `rotate` the service has
appended output, leaving the active file with content `c`. -/
def rotateRun (opts : LogRotateOptions) (fs : LogFS) (cs : List String) : LogFS :=
  cs.foldl (fun acc c => rotate opts { acc with main := some c }) fs

/-- An empty directory: no active file yet, no rotated segments. -/
def logFS0 : LogFS := { main := none, rot := [], gz := [] }

lemma lookupA_cons (p : Nat × String) (tl : List (Nat × String)) (k : Nat) :
    lookupA (p :: tl) k = if p.1 = k then some p.2 else lookupA tl k := rfl

lemma lookupA_eraseA (l : List (Nat × String)) (j k : Nat) :
    lookupA (eraseA l j) k = if k = j then none else lookupA l k := by
  induction l with
  | nil =>
    unfold eraseA
    rw [List.filter_nil]
    by_cases hkj : k = j <;> simp [lookupA, hkj]
  | cons p tl ih =>
    unfold eraseA at ih ⊢
    rw [List.filter_cons]
    by_cases hpj : p.1 = j
    · rw [if_neg (by simp [hpj])]
      rw [ih]
      by_cases hkj : k = j
      · simp [hkj]
      · rw [if_neg hkj, if_neg hkj, lookupA_cons,
          if_neg (by rw [hpj]; exact fun h => hkj h.symm)]
    · rw [if_pos (by simp [hpj]), lookupA_cons, lookupA_cons]
      by_cases hpk : p.1 = k
      · have hkj : k ≠ j := by rw [← hpk]; exact hpj
        rw [if_neg hkj, if_pos hpk, if_pos hpk]
      · rw [if_neg hpk, if_neg hpk, ih]

lemma lookupA_setA (l : List (Nat × String)) (j k : Nat) (c : String) :
    lookupA (setA l j c) k = if k = j then some c else lookupA l k := by
  unfold setA
  induction l with
  | nil =>
    unfold eraseA
    rw [List.filter_nil]
    by_cases hkj : k = j
    · simp [lookupA, hkj]
    · simp [lookupA, hkj, Ne.symm hkj]
  | cons p tl ih =>
    unfold eraseA at ih ⊢
    rw [List.filter_cons]
    by_cases hpj : p.1 = j
    · rw [if_neg (by simp [hpj])]
      rw [ih]
      by_cases hkj : k = j
      · simp [hkj]
      · rw [if_neg hkj, if_neg hkj, lookupA_cons,
          if_neg (by rw [hpj]; exact fun h => hkj h.symm)]
    · rw [if_pos (by simp [hpj]), List.cons_append, lookupA_cons, lookupA_cons]
      by_cases hpk : p.1 = k
      · have hkj : k ≠ j := by rw [← hpk]; exact hpj
        rw [if_neg hkj, if_pos hpk, if_pos hpk]
      · rw [if_neg hpk, if_neg hpk, ih]

lemma mem_keys_iff_lookupA (l : List (Nat × String)) (k : Nat) :
    k ∈ l.map Prod.fst ↔ (lookupA l k).isSome := by
  induction l with
  | nil => simp [lookupA]
  | cons p tl ih =>
    simp only [List.map_cons, List.mem_cons]
    unfold lookupA
    by_cases hpk : p.1 = k
    · rw [if_pos hpk]
      simp [hpk.symm]
    · rw [if_neg hpk]
      constructor
      · rintro (h | h)
        · exact absurd h.symm hpk
        · exact ih.mp h
      · intro h
        exact Or.inr (ih.mpr h)

lemma keys_eraseA (l : List (Nat × String)) (j : Nat) :
    (eraseA l j).map Prod.fst = (l.map Prod.fst).filter (fun k => !(k == j)) := by
  induction l with
  | nil => rfl
  | cons p tl ih =>
    unfold eraseA at ih ⊢
    rw [List.filter_cons, List.map_cons, List.filter_cons]
    by_cases hpj : p.1 = j
    · rw [if_neg (by simp [hpj]), if_neg (by simp [hpj])]
      exact ih
    · rw [if_pos (by simp [hpj]), if_pos (by simp [hpj]), List.map_cons, ih]

lemma nodup_keys_eraseA (l : List (Nat × String)) (j : Nat)
    (h : (l.map Prod.fst).Nodup) : ((eraseA l j).map Prod.fst).Nodup := by
  rw [keys_eraseA]
  exact h.filter _

lemma not_mem_keys_eraseA (l : List (Nat × String)) (j : Nat) :
    j ∉ (eraseA l j).map Prod.fst := by
  rw [keys_eraseA]
  intro h
  have := List.of_mem_filter h
  simp at this

lemma nodup_keys_setA (l : List (Nat × String)) (j : Nat) (c : String)
    (h : (l.map Prod.fst).Nodup) : ((setA l j c).map Prod.fst).Nodup := by
  unfold setA
  rw [List.map_append, show ([(j, c)] : List (Nat × String)).map Prod.fst = [j] from rfl]
  apply List.Nodup.append (nodup_keys_eraseA l j h) (List.nodup_singleton j)
  intro x hx hx2
  rw [List.mem_singleton] at hx2
  rw [hx2] at hx
  exact not_mem_keys_eraseA l j hx

/-- In a key-nodup assoc list whose key set is exactly `\x7b1..T\x7d`,
the number of entries is `T`. -/
lemma length_of_support (l : List (Nat × String)) (T : Nat)
    (hnd : (l.map Prod.fst).Nodup)
    (hsup : ∀ k, (lookupA l k).isSome ↔ 1 ≤ k ∧ k ≤ T) :
    l.length = T := by
  have hlen : l.length = (l.map Prod.fst).length := (List.length_map _ _).symm
  rw [hlen]
  have hfin : (l.map Prod.fst).toFinset = Finset.Icc 1 T := by
    apply Finset.ext
    intro k
    rw [List.mem_toFinset, mem_keys_iff_lookupA, hsup, Finset.mem_Icc]
  have hcard := List.toFinset_card_of_nodup hnd
  rw [hfin] at hcard
  rw [← hcard, Nat.card_Icc]
  omega

lemma length_insertDesc (x : String × Bool × Nat) (l : List (String × Bool × Nat)) :
    (insertDesc x l).length = l.length + 1 := by
  induction l with
  | nil => rfl
  | cons y ys ih =>
    unfold insertDesc
    split
    · rfl
    · simp only [List.length_cons, ih]

lemma length_sortDesc (l : List (String × Bool × Nat)) :
    (sortDesc l).length = l.length := by
  unfold sortDesc
  induction l with
  | nil => rfl
  | cons y ys ih =>
    rw [List.foldr_cons, length_insertDesc, ih, List.length_cons]

/-- When at most `retain` rotated files exist, the clean-excess pass
deletes nothing. -/
lemma cleanup_id (retain : Nat) (fs : LogFS)
    (h : fs.rot.length + fs.gz.length ≤ retain) : cleanup retain fs = fs := by
  unfold cleanup
  dsimp only
  rw [List.drop_eq_nil_of_le (by
    rw [length_sortDesc, List.length_append, List.length_map, List.length_map]
    exact h)]
  rfl

lemma rotStep_one (fs : LogFS) (c : String) (h : fs.main = some c) :
    rotStep false fs 1 = { main := none, rot := setA fs.rot 1 c, gz := fs.gz } := by
  unfold rotStep
  dsimp only
  rw [if_pos rfl, h]
  rfl

lemma rotStep_ge2 (fs : LogFS) (i : Nat) (hi : 2 ≤ i) :
    rotStep false fs i =
      match lookupA fs.rot (i - 1) with
      | none => fs
      | some c =>
        { main := fs.main, rot := setA (eraseA fs.rot (i - 1)) i c, gz := fs.gz } := by
  unfold rotStep
  dsimp only
  rw [if_neg (by omega : ¬ i = 1)]
  cases lookupA fs.rot (i - 1) with
  | none => rfl
  | some c =>
    dsimp only
    rw [if_neg (by omega : ¬ i = 1)]
    rfl

/-- Indices above the populated block are skipped by the rename loop
(their source file does not exist). -/
lemma rotFold_skip (m : Nat) (fs : LogFS)
    (hsup : ∀ j, (lookupA fs.rot j).isSome ↔ 1 ≤ j ∧ j ≤ m) (d : Nat) :
    (downFrom (m + 1 + d)).foldl (rotStep false) fs =
      (downFrom (m + 1)).foldl (rotStep false) fs := by
  induction d with
  | zero => rfl
  | succ d ih =>
    have hnone : lookupA fs.rot (m + 1 + d) = none := by
      cases hx : lookupA fs.rot (m + 1 + d) with
      | none => rfl
      | some v =>
        have h2 := (hsup (m + 1 + d)).mp (by rw [hx]; rfl)
        omega
    have hstep : rotStep false fs (m + 1 + d + 1) = fs := by
      rw [rotStep_ge2 fs (m + 1 + d + 1) (by omega),
        show m + 1 + d + 1 - 1 = m + 1 + d from rfl, hnone]
    show (downFrom ((m + 1 + d) + 1)).foldl (rotStep false) fs = _
    rw [show downFrom ((m + 1 + d) + 1) = ((m + 1 + d) + 1) :: downFrom (m + 1 + d) from rfl,
      List.foldl_cons, hstep]
    exact ih

/-- Invariant of the engaged phase of the rename loop, about to process
index `b`: the active file still holds `c`, the rotated files occupy
`\x7b1..b-1\x7d ∪ \x7bb+1..T\x7d` (the slot `b` is about to be
overwritten, so nothing is assumed about it), keys are duplicate-free
and no compressed files exist. -/
def HoleInv (T : Nat) (c : String) (b : Nat) (fs : LogFS) : Prop :=
  fs.main = some c ∧
  (∀ j, j ≠ b → ((lookupA fs.rot j).isSome ↔ (1 ≤ j ∧ j + 1 ≤ b) ∨ (b + 1 ≤ j ∧ j ≤ T))) ∧
  (fs.rot.map Prod.fst).Nodup ∧ fs.gz = []

lemma rotFold_engaged (T : Nat) (c : String) :
    ∀ (b : Nat) (fs : LogFS), 1 ≤ b → b ≤ T → HoleInv T c b fs →
      ((downFrom b).foldl (rotStep false) fs).main = none ∧
      (∀ j, (lookupA ((downFrom b).foldl (rotStep false) fs).rot j).isSome ↔
        1 ≤ j ∧ j ≤ T) ∧
      (((downFrom b).foldl (rotStep false) fs).rot.map Prod.fst).Nodup ∧
      ((downFrom b).foldl (rotStep false) fs).gz = [] := by
  intro b
  induction b with
  | zero =>
    intro fs h1 h2 h3
    exact absurd h1 (by omega)
  | succ b ih =>
    intro fs hb1 hbT hinv
    rw [show downFrom (b + 1) = (b + 1) :: downFrom b from rfl, List.foldl_cons]
    by_cases hb0 : b = 0
    · subst hb0
      rw [rotStep_one fs c hinv.1]
      rw [show downFrom 0 = ([] : List Nat) from rfl, List.foldl_nil]
      refine ⟨rfl, ?_, nodup_keys_setA _ _ _ hinv.2.2.1, hinv.2.2.2⟩
      intro j
      dsimp only
      rw [lookupA_setA]
      by_cases hj1 : j = 1
      · rw [if_pos hj1]
        simp only [Option.isSome_some]
        constructor
        · intro _; omega
        · intro _; trivial
      · rw [if_neg hj1]
        rw [hinv.2.1 j (by omega)]
        omega
    · have hsome : ∃ v, lookupA fs.rot b = some v := by
        have h2 := (hinv.2.1 b (by omega)).mpr (Or.inl (by omega))
        cases hx : lookupA fs.rot b with
        | none => rw [hx] at h2; exact absurd h2 (by simp)
        | some v => exact ⟨v, rfl⟩
      obtain ⟨v, hv⟩ := hsome
      rw [rotStep_ge2 fs (b + 1) (by omega), show b + 1 - 1 = b from rfl, hv]
      apply ih _ (by omega) (by omega)
      refine ⟨hinv.1, ?_,
        nodup_keys_setA _ _ _ (nodup_keys_eraseA _ _ hinv.2.2.1), hinv.2.2.2⟩
      intro j hjb
      dsimp only
      rw [lookupA_setA, lookupA_eraseA]
      by_cases hj1 : j = b + 1
      · rw [if_pos hj1]
        simp only [Option.isSome_some]
        constructor
        · intro _; omega
        · intro _; trivial
      · rw [if_neg hj1, if_neg hjb]
        rw [hinv.2.1 j hj1]
        omega

/-- Full effect of the rename loop `for (i = retain-1; i >= 1; i--)` on
a directory whose rotated files occupy `\x7b1..m\x7d`: the active file's
content moves to `f.1`, everything shifts up one slot, and the populated
block becomes `\x7b1..min (m+1) a\x7d`. -/
lemma rotFold_full (m a : Nat) (c : String) (fs : LogFS)
    (hmain : fs.main = some c)
    (hsup : ∀ j, (lookupA fs.rot j).isSome ↔ 1 ≤ j ∧ j ≤ m)
    (hnd : (fs.rot.map Prod.fst).Nodup) (hgz : fs.gz = [])
    (hma : m ≤ a) (ha1 : 1 ≤ a) :
    ((downFrom a).foldl (rotStep false) fs).main = none ∧
    (∀ j, (lookupA ((downFrom a).foldl (rotStep false) fs).rot j).isSome ↔
      1 ≤ j ∧ j ≤ min (m + 1) a) ∧
    (((downFrom a).foldl (rotStep false) fs).rot.map Prod.fst).Nodup ∧
    ((downFrom a).foldl (rotStep false) fs).gz = [] := by
  rcases Nat.lt_or_ge a (m + 1) with hlt | hge
  · have ham : a = m := by omega
    have hmin : min (m + 1) a = a := by omega
    rw [hmin]
    apply rotFold_engaged a c a fs ha1 (le_refl a)
    refine ⟨hmain, ?_, hnd, hgz⟩
    intro j hja
    rw [hsup j]
    omega
  · have hmin : min (m + 1) a = m + 1 := by omega
    rw [hmin]
    rw [show a = m + 1 + (a - (m + 1)) from by omega]
    rw [rotFold_skip m fs hsup (a - (m + 1))]
    apply rotFold_engaged (m + 1) c (m + 1) fs (by omega) (le_refl _)
    refine ⟨hmain, ?_, hnd, hgz⟩
    intro j hj
    rw [hsup j]
    omega

/-- Effect of one size-triggered rotation (compression off) on a
directory whose rotated files occupy `\x7b1..m\x7d` with `m < retain`:
afterwards the active file is empty and the rotated files occupy
`\x7b1..min (m+1) (retain-1)\x7d` — the suffix can never reach
`retain`. -/
lemma rotate_canon (N M m : Nat) (c : String) (fs : LogFS)
    (hmain : fs.main = some c)
    (hsup : ∀ j, (lookupA fs.rot j).isSome ↔ 1 ≤ j ∧ j ≤ m)
    (hnd : (fs.rot.map Prod.fst).Nodup) (hgz : fs.gz = [])
    (hm : m + 1 ≤ N) (hc : M ≤ c.length) :
    (rotate ⟨M, N, false⟩ fs).main = some "" ∧
    (∀ j, (lookupA (rotate ⟨M, N, false⟩ fs).rot j).isSome ↔
      1 ≤ j ∧ j ≤ min (m + 1) (N - 1)) ∧
    ((rotate ⟨M, N, false⟩ fs).rot.map Prod.fst).Nodup ∧
    (rotate ⟨M, N, false⟩ fs).gz = [] := by
  unfold rotate
  rw [hmain]
  dsimp only
  rw [if_neg (by omega : ¬ c.length < M)]
  by_cases hN1 : N = 1
  · subst hN1
    rw [show downFrom (1 - 1) = ([] : List Nat) from rfl, List.foldl_nil]
    have hm0 : m = 0 := by omega
    have hrotnil : fs.rot = [] := by
      cases hx : fs.rot with
      | nil => rfl
      | cons p tl =>
        have hsome : (lookupA fs.rot p.1).isSome := by
          rw [hx, lookupA_cons, if_pos rfl]
          rfl
        have := (hsup p.1).mp hsome
        omega
    rw [cleanup_id 1 fs (by rw [hrotnil, hgz]; simp)]
    refine ⟨rfl, ?_, hnd, hgz⟩
    intro j
    rw [show ({ fs with main := some "" } : LogFS).rot = fs.rot from rfl, hsup j]
    omega
  · have h1 : 1 ≤ N - 1 := by omega
    obtain ⟨hfm, hfs, hfn, hfg⟩ :=
      rotFold_full m (N - 1) c fs hmain hsup hnd hgz (by omega) h1
    have hlen : ((downFrom (N - 1)).foldl (rotStep false) fs).rot.length =
        min (m + 1) (N - 1) := length_of_support _ _ hfn hfs
    rw [cleanup_id N _ (by rw [hfg]; simp only [List.length_nil, Nat.add_zero, hlen]; omega)]
    exact ⟨rfl, fun j => hfs j, hfn, hfg⟩

/-- Canonical-shape invariant of a whole run of refill-and-rotate
cycles. -/
lemma rotateRun_canon (N M : Nat) (hN : 1 ≤ N) :
    ∀ (cs : List String), (∀ c ∈ cs, M ≤ c.length) →
    ∀ (fs : LogFS) (m : Nat),
      (∀ j, (lookupA fs.rot j).isSome ↔ 1 ≤ j ∧ j ≤ m) →
      (fs.rot.map Prod.fst).Nodup → fs.gz = [] → m + 1 ≤ N →
      ((∀ j, (lookupA (rotateRun ⟨M, N, false⟩ fs cs).rot j).isSome ↔
          1 ≤ j ∧ j ≤ min (m + cs.length) (N - 1)) ∧
        ((rotateRun ⟨M, N, false⟩ fs cs).rot.map Prod.fst).Nodup ∧
        (rotateRun ⟨M, N, false⟩ fs cs).gz = [] ∧
        (cs ≠ [] → (rotateRun ⟨M, N, false⟩ fs cs).main = some "")) := by
  intro cs
  induction cs with
  | nil =>
    intro hcs fs m hsup hnd hgz hm
    refine ⟨?_, hnd, hgz, fun h => absurd rfl h⟩
    intro j
    rw [show rotateRun ⟨M, N, false⟩ fs [] = fs from rfl, hsup j]
    simp only [List.length_nil, Nat.add_zero]
    omega
  | cons c rest ih =>
    intro hcs fs m hsup hnd hgz hm
    rw [show rotateRun ⟨M, N, false⟩ fs (c :: rest) =
      rotateRun ⟨M, N, false⟩ (rotate ⟨M, N, false⟩ { fs with main := some c }) rest
      from rfl]
    obtain ⟨hsm, hss, hsn, hsg⟩ :=
      rotate_canon N M m c { fs with main := some c } rfl hsup hnd hgz hm
        (hcs c (List.mem_cons_self c rest))
    have ihr := ih (fun x hx => hcs x (List.mem_cons_of_mem c hx))
      (rotate ⟨M, N, false⟩ { fs with main := some c }) (min (m + 1) (N - 1))
      hss hsn hsg (by omega)
    refine ⟨?_, ihr.2.1, ihr.2.2.1, fun _ => ?_⟩
    · intro j
      rw [ihr.1 j]
      simp only [List.length_cons]
      omega
    · by_cases hr : rest = []
      · subst hr
        rw [show rotateRun ⟨M, N, false⟩
          (rotate ⟨M, N, false⟩ { fs with main := some c }) [] =
          rotate ⟨M, N, false⟩ { fs with main := some c } from rfl]
        exact hsm
      · exact ihr.2.2.2 hr

/-- C8 (amended).  For a rotation policy `retain = N` with compression
off, after `N + 1` (indeed any `N + 1` or more) size-triggered
rotations of a file that grows to at least `max_bytes` before each
check, the directory holds exactly the files `\x7bf, f.1, …,
f.(N-1)\x7d` — the largest suffix the rename loop ever produces is
`retain - 1`, not `retain` — and the active file `f` has size 0
immediately after each rotation. -/
theorem rotation_files_after_run (N M : Nat) (hN : 1 ≤ N) (hM : 1 ≤ M)
    (cs : List String) (hcs : ∀ c ∈ cs, M ≤ c.length) (hlen : N + 1 ≤ cs.length) :
    (rotateRun ⟨M, N, false⟩ logFS0 cs).main = some "" ∧
    (∀ j, (lookupA (rotateRun ⟨M, N, false⟩ logFS0 cs).rot j).isSome ↔
      1 ≤ j ∧ j + 1 ≤ N) ∧
    (rotateRun ⟨M, N, false⟩ logFS0 cs).gz = [] := by
  have h0 : ∀ j, (lookupA logFS0.rot j).isSome ↔ 1 ≤ j ∧ j ≤ 0 := by
    intro j
    simp [logFS0, lookupA]
    omega
  have h := rotateRun_canon N M hN cs hcs logFS0 0 h0 (by simp [logFS0]) rfl (by omega)
  refine ⟨h.2.2.2 (by intro hnil; rw [hnil] at hlen; simp at hlen), ?_, h.2.2.1⟩
  intro j
  rw [h.1 j]
  omega

/-- Closed instance of `rotation_files_after_run` at `retain = 2`,
`max_bytes = 1`, three rotations. -/
theorem rotation_files_after_run_witness :
    (rotateRun ⟨1, 2, false⟩ logFS0 ["dd", "ee", "ff"]).main = some "" ∧
    (∀ j, (lookupA (rotateRun ⟨1, 2, false⟩ logFS0 ["dd", "ee", "ff"]).rot j).isSome ↔
      1 ≤ j ∧ j + 1 ≤ 2) ∧
    (rotateRun ⟨1, 2, false⟩ logFS0 ["dd", "ee", "ff"]).gz = [] :=
  rotation_files_after_run 2 1 (by decide) (by decide) ["dd", "ee", "ff"]
    (by decide) (by decide)

/-- C8 counterexample.  With `retain = 2` (and compression off), after 3
rotations the directory holds exactly `f` (empty) and `f.1`: the file
`f.2` demanded by the claim (`\x7bf, f.1, …, f.N\x7d` with `N = 2`) is
never created, because the rename loop starts at `retain - 1 = 1` and
the largest suffix it ever writes is `retain - 1`. -/
theorem rotation_never_creates_suffix_retain :
    (rotateRun ⟨1, 2, false⟩ logFS0 ["aa", "bb", "cc"]).main = some "" ∧
    lookupA (rotateRun ⟨1, 2, false⟩ logFS0 ["aa", "bb", "cc"]).rot 1 = some "cc" ∧
    lookupA (rotateRun ⟨1, 2, false⟩ logFS0 ["aa", "bb", "cc"]).rot 2 = none ∧
    (rotateRun ⟨1, 2, false⟩ logFS0 ["aa", "bb", "cc"]).gz = [] := by
  refine ⟨?_, ?_, ?_, ?_⟩ <;> decide

end BM2
